import Mathlib

/-!
Verification of the change-detection core, watch loop, request wrapper,
attachment deletion guard and rate limiter of the `claude-mcp-trello`
repository, shallowly embedded from `src/trello-client.ts` (the version
with `waitForChanges`/`detectChanges`), `src/types.ts` and the spec.

JavaScript `Map` objects are modelled as insertion-ordered association
lists with `mapGet`/`mapSet` mirroring `Map.get`/`Map.set` (a `set` on an
existing key overwrites the value but keeps the original position).
JavaScript string comparison (`<=`) and the default `Array.prototype.sort`
on strings are modelled by `charListLe`, the lexicographic comparison of
the underlying character lists by code point.
-/

namespace Trello

/-- `Map.get`: the value at the first matching key, if any. -/
def mapGet {α : Type} (m : List (String × α)) (k : String) : Option α :=
  match m with
  | [] => none
  | (k', v) :: rest => if k' = k then some v else mapGet rest k

/-- `Map.set`: overwrite the value at the first matching key in place,
or append the binding when the key is absent. -/
def mapSet {α : Type} (m : List (String × α)) (k : String) (v : α) :
    List (String × α) :=
  match m with
  | [] => [(k, v)]
  | (k', v') :: rest =>
    if k' = k then (k', v) :: rest else (k', v') :: mapSet rest k v

/-- JavaScript truthiness of an optional string: `undefined` and the
empty string are falsy. -/
def truthyS : Option String → Bool
  | none => false
  | some s => s ≠ ""

/-- `String.prototype.includes`, on character lists. -/
def listContainsSub (pat : List Char) : List Char → Bool
  | [] => pat.isPrefixOf []
  | c :: rest => pat.isPrefixOf (c :: rest) || listContainsSub pat rest

/-- `haystack.includes(needle)` for strings. -/
def strContains (haystack pat : String) : Bool :=
  listContainsSub pat.data haystack.data

/-- Concatenation of the per-element record lists, in order. -/
def flatMapL {α β : Type} (f : α → List β) : List α → List β
  | [] => []
  | a :: l => f a ++ flatMapL f l

/-- Lexicographic comparison of character lists by code point, modelling
JavaScript string `<=`. -/
def charListLe : List Char → List Char → Bool
  | [], _ => true
  | _ :: _, [] => false
  | a :: as, b :: bs =>
    if a.toNat < b.toNat then true
    else if b.toNat < a.toNat then false
    else charListLe as bs

/-- JavaScript `s <= t` on strings. -/
def strLe (s t : String) : Bool := charListLe s.data t.data

/-- `strLe` as a relation, for sortedness statements. -/
def strLeP (a b : String) : Prop := strLe a b = true

/-- `startsWith` on strings, by character-list prefix. -/
def strStartsWith (s pre : String) : Bool := pre.data.isPrefixOf s.data

/-- `CardSnapshot` from `types.ts`. -/
structure CardSnapshot where
  id : String
  name : String
  desc : String
  idList : String
  idLabels : List String
deriving DecidableEq, Repr

/-- `BoardSnapshot` from `types.ts`: insertion-ordered card map, list-name
map, and the optional last-seen activity id. -/
structure BoardSnapshot where
  cards : List (String × CardSnapshot)
  lists : List (String × String)
  lastActionId : Option String := none
deriving DecidableEq, Repr

/-- The card reference inside `TrelloAction.data` (only the fields the
detector reads). -/
structure ActionCardRef where
  id : String
  name : String
deriving DecidableEq, Repr

/-- `TrelloAction.data`, restricted to the fields the detector reads. -/
structure TrelloActionData where
  text : Option String := none
  card : Option ActionCardRef := none
deriving DecidableEq, Repr

/-- `TrelloAction`, restricted to the fields the detector reads. -/
structure TrelloAction where
  id : String
  type : String
  data : TrelloActionData
deriving DecidableEq, Repr

/-- The fields common to every change record pushed by `detectChanges`. -/
structure ChangeBase where
  cardId : String
  cardName : String
  cardDescription : String
  listId : String
  listName : String
  labels : List String
deriving DecidableEq, Repr

/-- `CardChange` as used in `trello-client.ts`: a tagged variant with the
common fields plus the variant-specific payload. -/
inductive CardChange where
  | added (base : ChangeBase)
  | moved (base : ChangeBase) (oldListId : String)
  | label_changed (base : ChangeBase) (oldLabels : List String)
  | description_changed (base : ChangeBase)
  | commented (base : ChangeBase) (comment : String) (isClaudeComment : Bool)
deriving DecidableEq, Repr

/-- The common fields of a change record. -/
def CardChange.base : CardChange → ChangeBase
  | .added b => b
  | .moved b _ => b
  | .label_changed b _ => b
  | .description_changed b => b
  | .commented b _ _ => b

/-- The `type` discriminator string of a change record. -/
def CardChange.kind : CardChange → String
  | .added _ => "added"
  | .moved _ _ => "moved"
  | .label_changed _ _ => "label_changed"
  | .description_changed _ => "description_changed"
  | .commented _ _ _ => "commented"

/-- The `cardId` field of a change record. -/
def CardChange.cardId (r : CardChange) : String := r.base.cardId

/-- Sorted insertion of one label id, for `array.sort()`. -/
def orderedInsertS (a : String) : List String → List String
  | [] => [a]
  | b :: l => if strLe a b then a :: b :: l else b :: orderedInsertS a l

/-- `array.sort()` on label ids: lexicographic string sort. -/
def sortLabels : List String → List String
  | [] => []
  | b :: l => orderedInsertS b (sortLabels l)

/-- `array.join(',')`. -/
def joinLabels (l : List String) : String :=
  String.intercalate "," l

/-- The automation marker substring tested by `detectChanges`. -/
def claudeMarker : String := "🤖 by Claude Code"

/-- The common fields of a change record built from a card and the
list-id→name map (`listNameMap.get(card.idList) || ''`). -/
def mkBase (card : CardSnapshot) (lnm : List (String × String)) : ChangeBase :=
  { cardId := card.id
    cardName := card.name
    cardDescription := card.desc
    listId := card.idList
    listName := (mapGet lnm card.idList).getD ""
    labels := card.idLabels }

/-- The `commented` record pushed for an activity entry
(`action.data.text || ''` and the marker test). -/
def mkCommented (card : CardSnapshot) (lnm : List (String × String))
    (text : String) : CardChange :=
  CardChange.commented (mkBase card lnm) text (strContains text claudeMarker)

/-- The break condition of the comment scan:
`oldActionId && action.id <= oldActionId` (JS truthiness: an absent or
empty old id never breaks). -/
def stopScan (oldActionId : Option String) (a : TrelloAction) : Bool :=
  truthyS oldActionId && strLe a.id (oldActionId.getD "")

/-- The `commented` record (if any) contributed by one scanned activity
entry: the entry must be of type `commentCard`, carry a card reference,
and the referenced card must exist in the new snapshot's card map. -/
def commentRec (cards : List (String × CardSnapshot))
    (lnm : List (String × String)) (a : TrelloAction) : Option CardChange :=
  if a.type = "commentCard" then
    match a.data.card with
    | some c => (mapGet cards c.id).map
        (fun card => mkCommented card lnm (a.data.text.getD ""))
    | none => none
  else none

/-- The comment-detection loop of `detectChanges`: scan the activity
entries in order, break at the first entry satisfying `stopScan`, and
push the `commentRec` record of every qualifying scanned entry. -/
def scanComments (oldActionId : Option String)
    (cards : List (String × CardSnapshot)) (lnm : List (String × String)) :
    List TrelloAction → List CardChange
  | [] => []
  | a :: rest =>
    if stopScan oldActionId a then []
    else
      match commentRec cards lnm a with
      | some r => r :: scanComments oldActionId cards lnm rest
      | none => scanComments oldActionId cards lnm rest

/-- Declarative form of the comment scan: the records of the qualifying
entries in the prefix before the first stopping entry. -/
def specCommentRecords (oldActionId : Option String)
    (cards : List (String × CardSnapshot)) (lnm : List (String × String))
    (actions : List TrelloAction) : List CardChange :=
  (actions.takeWhile (fun a => !stopScan oldActionId a)).filterMap
    (commentRec cards lnm)

/-- The records pushed by one iteration of the per-card loop of
`detectChanges`, given the looked-up old card. The `moved` record is
pushed before the in-place label sort (its `labels` hold the new card's
array as fetched); the `label_changed` and `description_changed` records
are pushed after it (their `labels`/`oldLabels` hold the sorted arrays). -/
def cardEntryRecords (lnm : List (String × String)) (newCard : CardSnapshot) :
    Option CardSnapshot → List CardChange
  | none => [CardChange.added (mkBase newCard lnm)]
  | some oldCard =>
    let movedRecs :=
      if oldCard.idList ≠ newCard.idList then
        [CardChange.moved (mkBase newCard lnm) oldCard.idList]
      else []
    let oldSorted := sortLabels oldCard.idLabels
    let newSorted := sortLabels newCard.idLabels
    let labelRecs :=
      if joinLabels oldSorted ≠ joinLabels newSorted then
        [CardChange.label_changed
          (mkBase { newCard with idLabels := newSorted } lnm) oldSorted]
      else []
    let descRecs :=
      if oldCard.desc ≠ newCard.desc then
        [CardChange.description_changed
          (mkBase { newCard with idLabels := newSorted } lnm)]
      else []
    movedRecs ++ labelRecs ++ descRecs

/-- A card with its label array sorted in place
(`card.idLabels.sort()` mutates the array). -/
def sortCard (c : CardSnapshot) : CardSnapshot :=
  { c with idLabels := sortLabels c.idLabels }

/-- The per-card loop of `detectChanges`. It walks the new snapshot's
card map in insertion order and returns the pushed records together with
the post-run card maps of both snapshots: `idLabels.sort()` sorts the
label arrays of every present-in-both card in place, in the old and the
new snapshot alike. -/
def cardPass (lnm : List (String × String)) :
    List (String × CardSnapshot) → List (String × CardSnapshot) →
    List CardChange × List (String × CardSnapshot) × List (String × CardSnapshot)
  | [], oldCards => ([], oldCards, [])
  | (k, newCard) :: rest, oldCards =>
    match mapGet oldCards k with
    | none =>
      let r := cardPass lnm rest oldCards
      (CardChange.added (mkBase newCard lnm) :: r.1, r.2.1, (k, newCard) :: r.2.2)
    | some oldCard =>
      let recs := cardEntryRecords lnm newCard (some oldCard)
      let oldCards' := mapSet oldCards k (sortCard oldCard)
      let r := cardPass lnm rest oldCards'
      (recs ++ r.1, r.2.1, (k, sortCard newCard) :: r.2.2)

/-- `detectChanges` from `trello-client.ts`, with the fetched activity
entries passed in. Returns the change list together with the
post-run old and new snapshots (the code mutates both: it sets the new
snapshot's `lastActionId` and sorts the compared cards' label arrays in
place). Comment records come first, then the per-card records in the
new card map's insertion order. -/
def detectChanges (actions : List TrelloAction)
    (oldSnapshot newSnapshot : BoardSnapshot)
    (lnm : List (String × String)) :
    List CardChange × BoardSnapshot × BoardSnapshot :=
  let commentRecs :=
    scanComments oldSnapshot.lastActionId newSnapshot.cards lnm actions
  let lastId' :=
    match actions with
    | [] => newSnapshot.lastActionId
    | a :: _ => some a.id
  let r := cardPass lnm newSnapshot.cards oldSnapshot.cards
  (commentRecs ++ r.1,
   { oldSnapshot with cards := r.2.1 },
   { newSnapshot with cards := r.2.2, lastActionId := lastId' })

/-- `TrelloList`, restricted to the fields the snapshot builder reads. -/
structure TrelloListM where
  id : String
  name : String
deriving DecidableEq, Repr

/-- `TrelloCard`, restricted to the fields the snapshot builder reads. -/
structure TrelloCardM where
  id : String
  name : String
  desc : String
  idList : String
  idLabels : List String
deriving DecidableEq, Repr

/-- The `CardSnapshot` stored for a fetched card (`card.idLabels || []`
is the identity on an array-valued field). -/
def snapCard (c : TrelloCardM) : CardSnapshot :=
  { id := c.id, name := c.name, desc := c.desc, idList := c.idList
    idLabels := c.idLabels }

/-- The inner loop of `createBoardSnapshot`: `cards.set(card.id, ...)`
for each fetched card of one list. -/
def addCardsAcc : List TrelloCardM → List (String × CardSnapshot) →
    List (String × CardSnapshot)
  | [], acc => acc
  | c :: cs, acc => addCardsAcc cs (mapSet acc c.id (snapCard c))

/-- The outer loop of `createBoardSnapshot`: record each list's name and,
when the list is targeted, its fetched cards. -/
def buildSnapAcc (targets : List String) (cardsOf : String → List TrelloCardM) :
    List TrelloListM → List (String × CardSnapshot) × List (String × String) →
    List (String × CardSnapshot) × List (String × String)
  | [], acc => acc
  | l :: rest, (cacc, lacc) =>
    let lacc' := mapSet lacc l.id l.name
    let cacc' :=
      if targets.contains l.id then addCardsAcc (cardsOf l.id) cacc
      else cacc
    buildSnapAcc targets cardsOf rest (cacc', lacc')

/-- `listIds || lists.map(l => l.id)` (a present array, even empty, is
truthy). -/
def targetIds (lists : List TrelloListM) : Option (List String) → List String
  | some ids => ids
  | none => lists.map (·.id)

/-- `createBoardSnapshot` from `trello-client.ts`, with the fetched lists
and each list's fetched cards passed in. -/
def createBoardSnapshot (lists : List TrelloListM)
    (cardsOf : String → List TrelloCardM) (listIds : Option (List String)) :
    BoardSnapshot :=
  let targets := targetIds lists listIds
  let acc := buildSnapAcc targets cardsOf lists ([], [])
  { cards := acc.1, lists := acc.2, lastActionId := none }

/-- The card-id sequence a run of the builder would append, list by list. -/
def builtIds (targets : List String) (cardsOf : String → List TrelloCardM)
    (lists : List TrelloListM) : List String :=
  flatMapL
    (fun l => if targets.contains l.id then (cardsOf l.id).map (·.id) else [])
    lists

/-- The card map a run of the builder appends: targeted lists in fetch
order, one entry per fetched card. -/
def builtCards (targets : List String) (cardsOf : String → List TrelloCardM)
    (lists : List TrelloListM) : List (String × CardSnapshot) :=
  flatMapL
    (fun l => if targets.contains l.id then
        (cardsOf l.id).map (fun c => (c.id, snapCard c))
      else [])
    lists

/-- `WaitForChangesResult` from `types.ts`. -/
structure WaitForChangesResult where
  changes : List CardChange
  timedOut : Bool
deriving DecidableEq, Repr

/-- The polling loop of `waitForChanges`. Each cycle is the pair of the
newly captured snapshot and the activity entries fetched by that cycle's
`detectChanges`; the cycle list holds the cycles that start before the
timeout. On a change the per-board store is updated with the (detector-
updated) new snapshot and the loop returns; otherwise only the local
comparison snapshot is replaced and the loop continues; an exhausted
cycle list is the timeout. -/
def waitLoop (boardId : String) (lnm : List (String × String)) :
    BoardSnapshot → List (BoardSnapshot × List TrelloAction) →
    List (String × BoardSnapshot) →
    WaitForChangesResult × List (String × BoardSnapshot)
  | _, [], store => ({ changes := [], timedOut := true }, store)
  | snap, (newSnap, acts) :: rest, store =>
    let r := detectChanges acts snap newSnap lnm
    if r.1.isEmpty then waitLoop boardId lnm r.2.2 rest store
    else ({ changes := r.1, timedOut := false }, mapSet store boardId r.2.2)

/-- `waitForChanges` from `trello-client.ts`: store the initial snapshot
in the process-wide per-board map, then poll. -/
def waitForChanges (boardId : String) (s0 : BoardSnapshot)
    (cycles : List (BoardSnapshot × List TrelloAction))
    (lnm : List (String × String)) (store : List (String × BoardSnapshot)) :
    WaitForChangesResult × List (String × BoardSnapshot) :=
  waitLoop boardId lnm s0 cycles (mapSet store boardId s0)

/-- The `response` object of an axios error, restricted to the fields
`handleRequest` reads (`status` and `data.message`). -/
structure AxResponse where
  status : Nat
  dataMessage : Option String := none
deriving DecidableEq, Repr

/-- An axios error: optional response plus the error's own `message`. -/
structure AxiosErr where
  response : Option AxResponse := none
  message : String
deriving DecidableEq, Repr

/-- The outcome of one attempt of the wrapped request. -/
inductive Outcome (T : Type) where
  | ok (t : T)
  | axios (e : AxiosErr)
  | other (msg : String)
deriving DecidableEq, Repr

/-- What `handleRequest` raises: the wrapped descriptive failure for an
axios error, or the original error rethrown. -/
inductive ReqError where
  | apiError (msg : String)
  | rethrown (msg : String)
deriving DecidableEq, Repr

/-- `error.response?.status === 429`. -/
def is429 (e : AxiosErr) : Bool :=
  match e.response with
  | some r => r.status = 429
  | none => false

/-- `error.response?.data?.message ?? error.message`. -/
def axiosMessage (e : AxiosErr) : String :=
  ((e.response.bind (·.dataMessage)).getD e.message)

/-- `handleRequest` from `trello-client.ts`, run against the list of
outcomes the successive attempts of the wrapped request would produce.
`none` means every supplied attempt hit a 429 and the wrapper is still
retrying; otherwise the result is paired with the total milliseconds of
`setTimeout(_, 1000)` back-off spent before it was produced. -/
def handleRequest {T : Type} : List (Outcome T) → Option (Except ReqError T × Nat)
  | [] => none
  | o :: rest =>
    match o with
    | .ok t => some (.ok t, 0)
    | .axios e =>
      if is429 e then
        (handleRequest rest).map (fun p => (p.1, p.2 + 1000))
      else
        some (.error (.apiError ("Trello API error: " ++ axiosMessage e)), 0)
    | .other m => some (.error (.rethrown m), 0)

/-- Result object of `deleteLocalAttachment`. -/
structure DeleteResult where
  success : Bool
  message : String
deriving DecidableEq, Repr

/-- `deleteLocalAttachment` from `trello-client.ts`. `resolve` stands for
`path.resolve`, `sep` for `path.sep`, and the file system for the list of
existing file paths; `fs.unlinkSync` on an existing path is modelled as
removing it. Returns the result object and the file system afterwards. -/
def deleteLocalAttachment (resolve : String → String) (sep : String)
    (attachmentDir : Option String) (fsPaths : List String)
    (filePath : String) : DeleteResult × List String :=
  if !truthyS attachmentDir then
    ({ success := false, message := "TRELLO_ATTACHMENT_DIR is not set" }, fsPaths)
  else
    let resolvedPath := resolve filePath
    let resolvedAttachmentDir := resolve (attachmentDir.getD "")
    if !(strStartsWith resolvedPath (resolvedAttachmentDir ++ sep)) then
      ({ success := false
         message := "Security error: Cannot delete files outside of attachment directory ("
           ++ resolvedAttachmentDir ++ ")" }, fsPaths)
    else if !(fsPaths.contains resolvedPath) then
      ({ success := false, message := "File not found: " ++ resolvedPath }, fsPaths)
    else
      ({ success := true, message := "Deleted: " ++ resolvedPath },
       fsPaths.erase resolvedPath)

/-- Modelled from the spec: the repository's `rate-limiter.ts`
(`createTrelloRateLimiters`) is not under `src/` — only its interface in
`types.ts` and its callers are — so the token bucket follows spec §4.1:
identity, capacity, fixed refill window, available count and last-refill
timestamp, starting full. -/
structure RateBucket where
  capacity : Nat
  windowMs : Nat
  available : Nat
  lastRefill : Nat
deriving DecidableEq, Repr

/-- Modelled from the spec: reclaim elapsed-window capacity — once the
window since the last refill has elapsed, reset the available count to
capacity and the refill timestamp to now (a fixed-window reset). -/
def refillBucket (t : Nat) (b : RateBucket) : RateBucket :=
  if b.lastRefill + b.windowMs ≤ t then
    { b with available := b.capacity, lastRefill := t }
  else b

/-- Modelled from the spec: the dual limiter — one bucket per credential
key, one per access token, enforced simultaneously. -/
structure DualLimiter where
  keyBucket : RateBucket
  tokenBucket : RateBucket
deriving DecidableEq, Repr

/-- Modelled from the spec: `waitForAvailable()` at time `t`. Refill both
buckets; when both have a token, consume one from each and return at once;
otherwise suspend until the next window boundary of whichever bucket is
exhausted, at which point the retried check succeeds (a refilled bucket is
full, a non-empty bucket untouched). Returns the completion time and the
limiter afterwards. -/
def waitForAvailable (t : Nat) (L : DualLimiter) : Nat × DualLimiter :=
  let k := refillBucket t L.keyBucket
  let tok := refillBucket t L.tokenBucket
  if 0 < k.available ∧ 0 < tok.available then
    (t, ⟨{ k with available := k.available - 1 },
         { tok with available := tok.available - 1 }⟩)
  else
    let tk := if k.available = 0 then k.lastRefill + k.windowMs else t
    let tt := if tok.available = 0 then tok.lastRefill + tok.windowMs else t
    let t' := max (max tk tt) t
    let k' := refillBucket t' k
    let tok' := refillBucket t' tok
    (t', ⟨{ k' with available := k'.available - 1 },
          { tok' with available := tok'.available - 1 }⟩)

/-- Modelled from the spec: the fresh Trello limiter — 300 requests per
10-second window per credential key, 100 per 10-second window per access
token, both buckets starting full at time `t0`. -/
def freshTrelloLimiter (t0 : Nat) : DualLimiter :=
  ⟨⟨300, 10000, 300, t0⟩, ⟨100, 10000, 100, t0⟩⟩

/-- Modelled from the spec: `n` sequential calls that each await the
limiter (the axios request interceptor awaits `waitForAvailable()` before
every outbound request proceeds) and fire as soon as it grants. Returns
the list of completion times. -/
def runCalls (L : DualLimiter) (t : Nat) : Nat → List Nat
  | 0 => []
  | n + 1 =>
    let g := waitForAvailable t L
    g.1 :: runCalls g.2 g.1 n

/-- The limiter state and current time after `k` back-to-back calls
against the fresh Trello limiter started at `t0`: the calls proceed in
batches of 100 (the token bucket's capacity), one batch per 10-second
window; between batch boundaries both buckets simply count down, and at a
boundary the exhausted token bucket forces the wait to the next refill. -/
def trelloStateAfter (t0 k : Nat) : DualLimiter × Nat :=
  if k = 0 then (freshTrelloLimiter t0, t0)
  else if k % 100 = 0 then
    (⟨⟨300, 10000, 200, t0 + (k / 100 - 1) * 10000⟩,
      ⟨100, 10000, 0, t0 + (k / 100 - 1) * 10000⟩⟩,
     t0 + (k / 100 - 1) * 10000)
  else
    (⟨⟨300, 10000, 300 - k % 100, t0 + (k / 100) * 10000⟩,
      ⟨100, 10000, 100 - k % 100, t0 + (k / 100) * 10000⟩⟩,
     t0 + (k / 100) * 10000)

/-! ### Association-list map lemmas -/

theorem mapGet_mapSet_self {α : Type} (m : List (String × α)) (k : String)
    (v : α) : mapGet (mapSet m k v) k = some v := by
  induction m with
  | nil => simp [mapGet, mapSet]
  | cons p rest ih =>
    obtain ⟨k', v'⟩ := p
    by_cases h : k' = k <;> simp [mapGet, mapSet, h, ih]

theorem mapGet_mapSet_ne {α : Type} (m : List (String × α)) {k k' : String}
    (v : α) (h : k' ≠ k) : mapGet (mapSet m k v) k' = mapGet m k' := by
  induction m with
  | nil => simp [mapGet, mapSet, Ne.symm h]
  | cons p rest ih =>
    obtain ⟨k₀, v₀⟩ := p
    by_cases hk : k₀ = k
    · subst hk
      simp [mapGet, mapSet, Ne.symm h]
    · simp [mapGet, mapSet, hk, ih]

theorem mapSet_fresh {α : Type} (m : List (String × α)) {k : String} (v : α)
    (h : k ∉ m.map Prod.fst) : mapSet m k v = m ++ [(k, v)] := by
  induction m with
  | nil => simp [mapSet]
  | cons p rest ih =>
    obtain ⟨k₀, v₀⟩ := p
    simp only [List.map_cons, List.mem_cons] at h
    push_neg at h
    simp [mapSet, Ne.symm h.1, ih h.2]

theorem mapGet_eq_none_of_not_mem {α : Type} (m : List (String × α))
    {k : String} (h : k ∉ m.map Prod.fst) : mapGet m k = none := by
  induction m with
  | nil => rfl
  | cons p rest ih =>
    obtain ⟨k₀, v₀⟩ := p
    simp only [List.map_cons, List.mem_cons] at h
    push_neg at h
    simp [mapGet, Ne.symm h.1, ih h.2]

theorem mapGet_eq_some_of_mem {α : Type} {m : List (String × α)}
    {k : String} {v : α} (hnd : (m.map Prod.fst).Nodup) (h : (k, v) ∈ m) :
    mapGet m k = some v := by
  induction m with
  | nil => cases h
  | cons p rest ih =>
    obtain ⟨k₀, v₀⟩ := p
    simp only [List.map_cons, List.nodup_cons] at hnd
    rcases List.mem_cons.mp h with h' | h'
    · injection h' with h1 h2
      subst h1; subst h2
      simp [mapGet]
    · have hk : ¬k₀ = k := by
        intro hk
        exact hnd.1 (hk ▸ List.mem_map.mpr ⟨(k, v), h', rfl⟩)
      simp only [mapGet, hk, if_false]
      exact ih hnd.2 h'

theorem mem_of_mapGet_eq_some {α : Type} {m : List (String × α)}
    {k : String} {v : α} (h : mapGet m k = some v) : (k, v) ∈ m := by
  induction m with
  | nil => simp [mapGet] at h
  | cons p rest ih =>
    obtain ⟨k₀, v₀⟩ := p
    by_cases hk : k₀ = k
    · subst hk
      simp [mapGet] at h
      subst h
      exact List.mem_cons_self _ _
    · simp only [mapGet, hk, if_false] at h
      exact List.mem_cons_of_mem _ (ih h)

theorem mapGet_append_left {α : Type} {m₁ : List (String × α)}
    (m₂ : List (String × α)) {k : String} (h : k ∈ m₁.map Prod.fst) :
    mapGet (m₁ ++ m₂) k = mapGet m₁ k := by
  induction m₁ with
  | nil => cases h
  | cons p rest ih =>
    obtain ⟨k₀, v₀⟩ := p
    by_cases hk : k₀ = k
    · simp [mapGet, hk]
    · simp only [List.map_cons, List.mem_cons] at h
      rcases h with h | h
      · exact absurd h.symm hk
      · simp [mapGet, hk, ih h]

theorem mapGet_append_right {α : Type} {m₁ : List (String × α)}
    (m₂ : List (String × α)) {k : String} (h : k ∉ m₁.map Prod.fst) :
    mapGet (m₁ ++ m₂) k = mapGet m₂ k := by
  induction m₁ with
  | nil => rfl
  | cons p rest ih =>
    obtain ⟨k₀, v₀⟩ := p
    simp only [List.map_cons, List.mem_cons] at h
    push_neg at h
    simp [mapGet, Ne.symm h.1, ih h.2]

/-! ### flatMapL lemmas -/

theorem flatMapL_append {α β : Type} (f : α → List β) (l₁ l₂ : List α) :
    flatMapL f (l₁ ++ l₂) = flatMapL f l₁ ++ flatMapL f l₂ := by
  induction l₁ with
  | nil => rfl
  | cons a l ih => simp [flatMapL, ih]

theorem mem_flatMapL {α β : Type} {f : α → List β} {l : List α} {b : β} :
    b ∈ flatMapL f l ↔ ∃ a ∈ l, b ∈ f a := by
  induction l with
  | nil => simp [flatMapL]
  | cons a l ih =>
    simp only [flatMapL, List.mem_append, ih, List.mem_cons]
    constructor
    · rintro (h | ⟨a', ha', hb⟩)
      · exact ⟨a, Or.inl rfl, h⟩
      · exact ⟨a', Or.inr ha', hb⟩
    · rintro ⟨a', (rfl | ha'), hb⟩
      · exact Or.inl hb
      · exact Or.inr ⟨a', ha', hb⟩

theorem filter_flatMapL {α β : Type} (p : β → Bool) (f : α → List β)
    (l : List α) :
    (flatMapL f l).filter p = flatMapL (fun a => (f a).filter p) l := by
  induction l with
  | nil => rfl
  | cons a l ih => simp [flatMapL, List.filter_append, ih]

theorem flatMapL_eq_nil {α β : Type} {f : α → List β} {l : List α}
    (h : ∀ a ∈ l, f a = []) : flatMapL f l = [] := by
  induction l with
  | nil => rfl
  | cons a l ih =>
    simp [flatMapL, h a (List.mem_cons_self a l),
      ih (fun a' ha' => h a' (List.mem_cons_of_mem a ha'))]

/-! ### String-order and sorting lemmas -/

theorem charListLe_trans : ∀ {as bs cs : List Char}, charListLe as bs = true →
    charListLe bs cs = true → charListLe as cs = true
  | [], _, _, _, _ => rfl
  | _ :: _, [], _, h1, _ => by simp [charListLe] at h1
  | _ :: _, _ :: _, [], _, h2 => by simp [charListLe] at h2
  | a :: as, b :: bs, c :: cs, h1, h2 => by
    simp only [charListLe] at h1 h2 ⊢
    rcases Nat.lt_trichotomy a.toNat b.toNat with hab | hab | hab
    · rcases Nat.lt_trichotomy b.toNat c.toNat with hbc | hbc | hbc
      · simp [Nat.lt_trans hab hbc]
      · simp [hbc ▸ hab]
      · exfalso
        simp [Nat.lt_asymm hbc, hbc] at h2
    · rcases Nat.lt_trichotomy b.toNat c.toNat with hbc | hbc | hbc
      · simp [hab ▸ hbc]
      · have h1' : charListLe as bs = true := by simpa [hab] using h1
        have h2' : charListLe bs cs = true := by simpa [hbc] using h2
        simp [hab.trans hbc, charListLe_trans h1' h2']
      · exfalso
        simp [Nat.lt_asymm hbc, hbc] at h2
    · exfalso
      simp [Nat.lt_asymm hab, hab] at h1

theorem charListLe_total : ∀ as bs : List Char,
    charListLe as bs = true ∨ charListLe bs as = true
  | [], _ => Or.inl rfl
  | _ :: _, [] => Or.inr rfl
  | a :: as, b :: bs => by
    rcases Nat.lt_trichotomy a.toNat b.toNat with h | h | h
    · exact Or.inl (by simp [charListLe, h])
    · rcases charListLe_total as bs with ih | ih
      · exact Or.inl (by simp [charListLe, h, ih])
      · exact Or.inr (by simp [charListLe, h.symm, ih])
    · exact Or.inr (by simp [charListLe, h])

theorem charListLe_antisymm : ∀ {as bs : List Char}, charListLe as bs = true →
    charListLe bs as = true → as = bs
  | [], [], _, _ => rfl
  | [], _ :: _, _, h2 => by simp [charListLe] at h2
  | _ :: _, [], h1, _ => by simp [charListLe] at h1
  | a :: as, b :: bs, h1, h2 => by
    simp only [charListLe] at h1 h2
    rcases Nat.lt_trichotomy a.toNat b.toNat with hab | hab | hab
    · exfalso
      simp [Nat.lt_asymm hab, hab] at h2
    · have hc : a = b := Char.ext (UInt32.toNat.inj hab)
      subst hc
      have h1' : charListLe as bs = true := by simpa using h1
      have h2' : charListLe bs as = true := by simpa using h2
      rw [charListLe_antisymm h1' h2']
    · exfalso
      simp [Nat.lt_asymm hab, hab] at h1

theorem strExt : ∀ {s t : String}, s.data = t.data → s = t
  | ⟨_⟩, ⟨_⟩, h => congrArg String.mk h

theorem strLe_trans {a b c : String} (h1 : strLe a b = true)
    (h2 : strLe b c = true) : strLe a c = true :=
  charListLe_trans h1 h2

theorem strLe_total (a b : String) : strLe a b = true ∨ strLe b a = true :=
  charListLe_total a.data b.data

theorem strLe_antisymm {a b : String} (h1 : strLe a b = true)
    (h2 : strLe b a = true) : a = b :=
  strExt (charListLe_antisymm h1 h2)

instance : IsAntisymm String strLeP := ⟨fun _ _ h1 h2 => strLe_antisymm h1 h2⟩

theorem mem_orderedInsertS {x a : String} :
    ∀ {l : List String}, x ∈ orderedInsertS a l ↔ x = a ∨ x ∈ l
  | [] => by simp [orderedInsertS]
  | b :: l => by
    by_cases h : strLe a b
    · simp [orderedInsertS, h]
    · simp [orderedInsertS, h, mem_orderedInsertS (l := l)]
      tauto

theorem orderedInsertS_perm (a : String) :
    ∀ l : List String, (orderedInsertS a l).Perm (a :: l)
  | [] => List.Perm.refl _
  | b :: l => by
    by_cases h : strLe a b
    · simp [orderedInsertS, h]
    · rw [orderedInsertS, if_neg h]
      exact ((orderedInsertS_perm a l).cons b).trans (List.Perm.swap a b l)

theorem sortLabels_perm : ∀ l : List String, (sortLabels l).Perm l
  | [] => List.Perm.refl _
  | b :: l =>
    (orderedInsertS_perm b (sortLabels l)).trans ((sortLabels_perm l).cons b)

theorem orderedInsertS_sorted (a : String) :
    ∀ {l : List String}, List.Sorted strLeP l →
      List.Sorted strLeP (orderedInsertS a l)
  | [], _ => by simp [orderedInsertS]
  | b :: l, h => by
    by_cases hab : strLe a b
    · rw [orderedInsertS, if_pos hab, List.sorted_cons]
      refine ⟨fun x hx => ?_, h⟩
      rcases List.mem_cons.mp hx with rfl | hx
      · exact hab
      · exact strLe_trans hab ((List.sorted_cons.mp h).1 x hx)
    · rw [orderedInsertS, if_neg hab, List.sorted_cons]
      have hba : strLe b a = true := (strLe_total a b).resolve_left hab
      refine ⟨fun x hx => ?_, orderedInsertS_sorted a (List.sorted_cons.mp h).2⟩
      rcases mem_orderedInsertS.mp hx with rfl | hx
      · exact hba
      · exact (List.sorted_cons.mp h).1 x hx

theorem sortLabels_sorted : ∀ l : List String, List.Sorted strLeP (sortLabels l)
  | [] => List.sorted_nil
  | b :: l => orderedInsertS_sorted b (sortLabels_sorted l)

theorem sortLabels_eq_of_perm {l₁ l₂ : List String} (h : l₁.Perm l₂) :
    sortLabels l₁ = sortLabels l₂ :=
  List.eq_of_perm_of_sorted
    ((sortLabels_perm l₁).trans (h.trans (sortLabels_perm l₂).symm))
    (sortLabels_sorted l₁) (sortLabels_sorted l₂)

theorem flatMapL_congr {α β : Type} {f g : α → List β} :
    ∀ {l : List α}, (∀ a ∈ l, f a = g a) → flatMapL f l = flatMapL g l
  | [], _ => rfl
  | a :: l, h => by
    simp only [flatMapL, h a (List.mem_cons_self a l)]
    rw [flatMapL_congr (fun a' ha' => h a' (List.mem_cons_of_mem a ha'))]

/-! ### Comment-scan lemmas -/

theorem scanComments_eq_spec (oldId : Option String)
    (cards : List (String × CardSnapshot)) (lnm : List (String × String))
    (acts : List TrelloAction) :
    scanComments oldId cards lnm acts = specCommentRecords oldId cards lnm acts := by
  induction acts with
  | nil => rfl
  | cons a rest ih =>
    cases h : stopScan oldId a with
    | true => simp [scanComments, specCommentRecords, h]
    | false =>
      simp only [scanComments, h, Bool.false_eq_true, if_false]
      simp only [specCommentRecords, List.takeWhile_cons, h, Bool.not_false,
        if_true]
      rw [List.filterMap_cons]
      cases hc : commentRec cards lnm a <;> simp [hc, ih, specCommentRecords]

theorem commentRec_eq_some {cards : List (String × CardSnapshot)}
    {lnm : List (String × String)} {a : TrelloAction} {r : CardChange}
    (h : commentRec cards lnm a = some r) :
    ∃ c card, a.type = "commentCard" ∧ a.data.card = some c ∧
      mapGet cards c.id = some card ∧
      r = mkCommented card lnm (a.data.text.getD "") := by
  by_cases ht : a.type = "commentCard"
  · cases hc : a.data.card with
    | none => simp [commentRec, ht, hc] at h
    | some c =>
      cases hg : mapGet cards c.id with
      | none => simp [commentRec, ht, hc, hg] at h
      | some card =>
        simp only [commentRec, ht, hc, hg, if_true, Option.map_some',
          Option.some.injEq, if_pos] at h
        exact ⟨c, card, ht, rfl, hg, h.symm⟩
  · simp [commentRec, ht] at h

theorem mem_scanComments {oldId : Option String}
    {cards : List (String × CardSnapshot)} {lnm : List (String × String)} :
    ∀ {acts : List TrelloAction} {r : CardChange},
      r ∈ scanComments oldId cards lnm acts →
      ∃ k card text, mapGet cards k = some card ∧ r = mkCommented card lnm text
  | [], _, h => by cases h
  | a :: rest, r, h => by
    by_cases hs : stopScan oldId a
    · simp [scanComments, hs] at h
    · simp only [scanComments, hs, if_false] at h
      cases hc : commentRec cards lnm a with
      | none =>
        rw [hc] at h
        exact mem_scanComments h
      | some r' =>
        rw [hc] at h
        rcases List.mem_cons.mp h with h' | h'
        · obtain ⟨c, card, _, _, hg, hr⟩ := commentRec_eq_some hc
          exact ⟨c.id, card, a.data.text.getD "", hg, h' ▸ hr⟩
        · exact mem_scanComments h'

theorem scanComments_kind {oldId : Option String}
    {cards : List (String × CardSnapshot)} {lnm : List (String × String)}
    {acts : List TrelloAction} {r : CardChange}
    (h : r ∈ scanComments oldId cards lnm acts) : r.kind = "commented" := by
  obtain ⟨_, _, _, _, hr⟩ := mem_scanComments h
  subst hr
  rfl

theorem scanComments_cardId_mem {oldId : Option String}
    {cards : List (String × CardSnapshot)} {lnm : List (String × String)}
    {acts : List TrelloAction} {r : CardChange}
    (hw : ∀ p ∈ cards, (p.2).id = p.1)
    (h : r ∈ scanComments oldId cards lnm acts) :
    r.cardId ∈ cards.map Prod.fst := by
  obtain ⟨k, card, text, hg, hr⟩ := mem_scanComments h
  have hmem := mem_of_mapGet_eq_some hg
  have hid : card.id = k := hw (k, card) hmem
  subst hr
  show card.id ∈ cards.map Prod.fst
  rw [hid]
  exact List.mem_map.mpr ⟨(k, card), hmem, rfl⟩

/-! ### Per-card pass lemmas -/

theorem cardEntryRecords_self (lnm : List (String × String))
    (c : CardSnapshot) : cardEntryRecords lnm c (some c) = [] := by
  simp [cardEntryRecords]

theorem mem_cardEntryRecords {lnm : List (String × String)}
    {newCard : CardSnapshot} {oc : Option CardSnapshot} {r : CardChange}
    (h : r ∈ cardEntryRecords lnm newCard oc) :
    r.cardId = newCard.id ∧ r.kind ≠ "commented" := by
  cases oc with
  | none =>
    simp [cardEntryRecords] at h
    subst h
    exact ⟨rfl, show ("added" : String) ≠ "commented" by decide⟩
  | some oldCard =>
    simp only [cardEntryRecords, List.mem_append] at h
    rcases h with (h | h) | h
    · split at h
      · rcases List.mem_singleton.mp h with rfl
        exact ⟨rfl, show ("moved" : String) ≠ "commented" by decide⟩
      · cases h
    · split at h
      · rcases List.mem_singleton.mp h with rfl
        exact ⟨rfl, show ("label_changed" : String) ≠ "commented" by decide⟩
      · cases h
    · split at h
      · rcases List.mem_singleton.mp h with rfl
        exact ⟨rfl, show ("description_changed" : String) ≠ "commented" by decide⟩
      · cases h

theorem cardPass_changes (lnm : List (String × String)) :
    ∀ (entries oldCards : List (String × CardSnapshot)),
      (entries.map Prod.fst).Nodup →
      (cardPass lnm entries oldCards).1 =
        flatMapL (fun e => cardEntryRecords lnm e.2 (mapGet oldCards e.1)) entries
  | [], _, _ => rfl
  | (k, newCard) :: rest, oldCards, hnd => by
    simp only [List.map_cons, List.nodup_cons] at hnd
    cases ho : mapGet oldCards k with
    | none =>
      simp only [cardPass, ho, flatMapL, cardEntryRecords]
      rw [cardPass_changes lnm rest oldCards hnd.2]
      rfl
    | some oldCard =>
      simp only [cardPass, ho, flatMapL]
      rw [cardPass_changes lnm rest (mapSet oldCards k (sortCard oldCard)) hnd.2]
      congr 1
      exact flatMapL_congr (fun e he => by
        have hne : e.1 ≠ k := by
          intro hk
          exact hnd.1 (hk ▸ List.mem_map.mpr ⟨e, he, rfl⟩)
        rw [mapGet_mapSet_ne _ _ hne])

theorem cardPass_oldMap (lnm : List (String × String)) :
    ∀ (entries oldCards : List (String × CardSnapshot)),
      (entries.map Prod.fst).Nodup → ∀ k : String,
      mapGet (cardPass lnm entries oldCards).2.1 k =
        if k ∈ entries.map Prod.fst then (mapGet oldCards k).map sortCard
        else mapGet oldCards k
  | [], oldCards, _, k => by simp [cardPass]
  | (k₀, c₀) :: rest, oldCards, hnd, k => by
    simp only [List.map_cons, List.nodup_cons] at hnd
    cases ho : mapGet oldCards k₀ with
    | none =>
      simp only [cardPass, ho]
      rw [cardPass_oldMap lnm rest oldCards hnd.2 k]
      simp only [List.map_cons]
      by_cases hk : k = k₀
      · subst hk
        simp [fun h => hnd.1 h, ho]
      · by_cases hm : k ∈ List.map Prod.fst rest
        · rw [if_pos hm, if_pos (List.mem_cons_of_mem _ hm)]
        · rw [if_neg hm, if_neg (by simp [List.mem_cons, hk, hm])]
    | some c =>
      simp only [cardPass, ho]
      rw [cardPass_oldMap lnm rest (mapSet oldCards k₀ (sortCard c)) hnd.2 k]
      simp only [List.map_cons]
      by_cases hk : k = k₀
      · subst hk
        simp [fun h => hnd.1 h, mapGet_mapSet_self, ho]
      · rw [mapGet_mapSet_ne _ _ hk]
        by_cases hm : k ∈ List.map Prod.fst rest
        · rw [if_pos hm, if_pos (List.mem_cons_of_mem _ hm)]
        · rw [if_neg hm, if_neg (by simp [List.mem_cons, hk, hm])]

theorem cardPass_newMap (lnm : List (String × String)) :
    ∀ (entries oldCards : List (String × CardSnapshot)),
      (entries.map Prod.fst).Nodup →
      (cardPass lnm entries oldCards).2.2 =
        entries.map (fun e =>
          if (mapGet oldCards e.1).isSome then (e.1, sortCard e.2) else e)
  | [], _, _ => rfl
  | (k₀, c₀) :: rest, oldCards, hnd => by
    simp only [List.map_cons, List.nodup_cons] at hnd
    cases ho : mapGet oldCards k₀ with
    | none =>
      simp only [cardPass, ho]
      rw [cardPass_newMap lnm rest oldCards hnd.2]
      simp [ho]
    | some c =>
      simp only [cardPass, ho]
      rw [cardPass_newMap lnm rest (mapSet oldCards k₀ (sortCard c)) hnd.2]
      rw [List.map_congr_left (fun e he => by
        have hne : e.1 ≠ k₀ := by
          intro hk
          exact hnd.1 (hk ▸ List.mem_map.mpr ⟨e, he, rfl⟩)
        rw [mapGet_mapSet_ne _ _ hne])]
      simp [ho]

/-! ### detectChanges claim-support lemmas -/

theorem detectChanges_changes (acts : List TrelloAction)
    (o n : BoardSnapshot) (lnm : List (String × String))
    (hnd : (n.cards.map Prod.fst).Nodup) :
    (detectChanges acts o n lnm).1 =
      scanComments o.lastActionId n.cards lnm acts ++
        flatMapL (fun e => cardEntryRecords lnm e.2 (mapGet o.cards e.1))
          n.cards := by
  simp only [detectChanges]
  rw [cardPass_changes lnm n.cards o.cards hnd]

theorem mem_detectChanges_cardId {acts : List TrelloAction}
    {o n : BoardSnapshot} {lnm : List (String × String)} {r : CardChange}
    (hnd : (n.cards.map Prod.fst).Nodup)
    (hw : ∀ q ∈ n.cards, (q.2).id = q.1)
    (h : r ∈ (detectChanges acts o n lnm).1) :
    r.cardId ∈ n.cards.map Prod.fst := by
  rw [detectChanges_changes acts o n lnm hnd] at h
  rcases List.mem_append.mp h with h | h
  · exact scanComments_cardId_mem hw h
  · obtain ⟨e, he, hr⟩ := mem_flatMapL.mp h
    rw [(mem_cardEntryRecords hr).1, hw e he]
    exact List.mem_map.mpr ⟨e, he, rfl⟩

theorem detectChanges_filter_single {acts : List TrelloAction}
    {o n : BoardSnapshot} {lnm : List (String × String)} {cid : String}
    {newCard : CardSnapshot} (p : CardChange → Bool)
    (hnd : (n.cards.map Prod.fst).Nodup)
    (hw : ∀ q ∈ n.cards, (q.2).id = q.1)
    (hmem : (cid, newCard) ∈ n.cards)
    (hcomm : ∀ b cm fl, p (CardChange.commented b cm fl) = false)
    (hpid : ∀ r, p r = true → r.cardId = cid) :
    ((detectChanges acts o n lnm).1).filter p =
      (cardEntryRecords lnm newCard (mapGet o.cards cid)).filter p := by
  rw [detectChanges_changes acts o n lnm hnd, List.filter_append]
  have hscan : (scanComments o.lastActionId n.cards lnm acts).filter p = [] := by
    refine List.filter_eq_nil_iff.mpr (fun r hr => ?_)
    obtain ⟨k, card, text, hg, hrr⟩ := mem_scanComments hr
    subst hrr
    simp [mkCommented, hcomm]
  rw [hscan, List.nil_append, filter_flatMapL]
  obtain ⟨pre, post, hsplit⟩ := List.append_of_mem hmem
  have hkeys : (pre.map Prod.fst ++ cid :: post.map Prod.fst).Nodup := by
    have h' := hnd
    rw [hsplit] at h'
    simpa using h'
  have hpre : cid ∉ pre.map Prod.fst := by
    intro hc
    exact (List.nodup_append.mp hkeys).2.2 hc (List.mem_cons_self _ _)
  have hpost : cid ∉ post.map Prod.fst :=
    (List.nodup_cons.mp (List.nodup_append.mp hkeys).2.1).1
  have hside : ∀ e : String × CardSnapshot, e ∈ n.cards → e.1 ≠ cid →
      (cardEntryRecords lnm e.2 (mapGet o.cards e.1)).filter p = [] := by
    intro e he hne
    refine List.filter_eq_nil_iff.mpr (fun r hr hp => ?_)
    have hid := (mem_cardEntryRecords hr).1
    have he1 : (e.2).id = e.1 := hw e he
    exact hne (by rw [← he1, ← hid, hpid r hp])
  rw [hsplit, flatMapL_append]
  have hflatpre :
      flatMapL (fun e => (cardEntryRecords lnm e.2 (mapGet o.cards e.1)).filter p)
        pre = [] := by
    refine flatMapL_eq_nil (fun e he => ?_)
    refine hside e (hsplit ▸ List.mem_append_left _ he) (fun hc => ?_)
    exact hpre (hc ▸ List.mem_map.mpr ⟨e, he, rfl⟩)
  have hflatpost :
      flatMapL (fun e => (cardEntryRecords lnm e.2 (mapGet o.cards e.1)).filter p)
        post = [] := by
    refine flatMapL_eq_nil (fun e he => ?_)
    refine hside e
      (hsplit ▸ List.mem_append_right _ (List.mem_cons_of_mem _ he))
      (fun hc => ?_)
    exact hpost (hc ▸ List.mem_map.mpr ⟨e, he, rfl⟩)
  simp [flatMapL, hflatpre, hflatpost]

theorem cardPass_single_mod (lnm : List (String × String))
    (pre post : List (String × CardSnapshot)) (cid : String)
    (oldC newC : CardSnapshot)
    (hnd : ((pre ++ (cid, oldC) :: post).map Prod.fst).Nodup) :
    (cardPass lnm (pre ++ (cid, newC) :: post) (pre ++ (cid, oldC) :: post)).1 =
      cardEntryRecords lnm newC (some oldC) := by
  have hkeys : (pre.map Prod.fst ++ cid :: post.map Prod.fst).Nodup := by
    simpa using hnd
  have hnd' : ((pre ++ (cid, newC) :: post).map Prod.fst).Nodup := by
    simpa using hkeys
  have hpre : cid ∉ pre.map Prod.fst := by
    intro hc
    exact (List.nodup_append.mp hkeys).2.2 hc (List.mem_cons_self _ _)
  have hprend : (pre.map Prod.fst).Nodup := (List.nodup_append.mp hkeys).1
  have hpostnd : (post.map Prod.fst).Nodup :=
    (List.nodup_cons.mp (List.nodup_append.mp hkeys).2.1).2
  rw [cardPass_changes lnm _ _ hnd', flatMapL_append]
  have hget : ∀ e : String × CardSnapshot, e ∈ pre ∨ e ∈ post →
      mapGet (pre ++ (cid, oldC) :: post) e.1 = some e.2 := by
    rintro e (he | he)
    · rw [mapGet_append_left _ (List.mem_map.mpr ⟨e, he, rfl⟩)]
      exact mapGet_eq_some_of_mem hprend he
    · have hpost : cid ∉ post.map Prod.fst :=
        (List.nodup_cons.mp (List.nodup_append.mp hkeys).2.1).1
      have hne : e.1 ≠ cid := by
        intro hc
        exact hpost (hc ▸ List.mem_map.mpr ⟨e, he, rfl⟩)
      have hnp : e.1 ∉ pre.map Prod.fst := by
        intro hc
        exact (List.nodup_append.mp hkeys).2.2 hc
          (List.mem_cons_of_mem _ (List.mem_map.mpr ⟨e, he, rfl⟩))
      rw [mapGet_append_right _ hnp]
      simp only [mapGet, hne, if_false]
      rw [if_neg (fun hc => hne hc.symm)]
      exact mapGet_eq_some_of_mem hpostnd he
  have hmid : mapGet (pre ++ (cid, oldC) :: post) cid = some oldC := by
    rw [mapGet_append_right _ hpre]
    simp [mapGet]
  have hflatpre :
      flatMapL (fun e => cardEntryRecords lnm e.2 (mapGet (pre ++ (cid, oldC) :: post) e.1))
        pre = [] := by
    refine flatMapL_eq_nil (fun e he => ?_)
    rw [hget e (Or.inl he)]
    exact cardEntryRecords_self lnm e.2
  have hflatpost :
      flatMapL (fun e => cardEntryRecords lnm e.2 (mapGet (pre ++ (cid, oldC) :: post) e.1))
        post = [] := by
    refine flatMapL_eq_nil (fun e he => ?_)
    rw [hget e (Or.inr he)]
    exact cardEntryRecords_self lnm e.2
  simp [flatMapL, hflatpre, hflatpost, hmid]

/-! ### Snapshot-builder lemmas -/

theorem addCardsAcc_eq : ∀ (cs : List TrelloCardM)
    (acc : List (String × CardSnapshot)),
    (cs.map (·.id)).Nodup → (∀ c ∈ cs, c.id ∉ acc.map Prod.fst) →
    addCardsAcc cs acc = acc ++ cs.map (fun c => (c.id, snapCard c))
  | [], acc, _, _ => by simp [addCardsAcc]
  | c :: cs, acc, hnd, hfresh => by
    simp only [List.map_cons, List.nodup_cons] at hnd
    rw [addCardsAcc,
      mapSet_fresh acc (snapCard c) (hfresh c (List.mem_cons_self _ _))]
    rw [addCardsAcc_eq cs (acc ++ [(c.id, snapCard c)]) hnd.2 (by
      intro c' hc'
      simp only [List.map_append, List.mem_append]
      push_neg
      refine ⟨hfresh c' (List.mem_cons_of_mem _ hc'), ?_⟩
      simp only [List.map_cons, List.map_nil, List.mem_singleton]
      intro hc
      exact hnd.1 (hc ▸ List.mem_map.mpr ⟨c', hc', rfl⟩))]
    simp

theorem buildSnapAcc_cards (targets : List String)
    (cardsOf : String → List TrelloCardM) :
    ∀ (lists : List TrelloListM) (cacc : List (String × CardSnapshot))
      (lacc : List (String × String)),
      (cacc.map Prod.fst ++ builtIds targets cardsOf lists).Nodup →
      (buildSnapAcc targets cardsOf lists (cacc, lacc)).1 =
        cacc ++ builtCards targets cardsOf lists
  | [], cacc, lacc, _ => by simp [buildSnapAcc, builtCards, flatMapL]
  | l :: lists, cacc, lacc, hnd => by
    by_cases ht : targets.contains l.id
    · have hids : builtIds targets cardsOf (l :: lists) =
          (cardsOf l.id).map (·.id) ++ builtIds targets cardsOf lists := by
        unfold builtIds
        simp only [flatMapL]
        rw [if_pos ht]
      have hcards : builtCards targets cardsOf (l :: lists) =
          (cardsOf l.id).map (fun c => (c.id, snapCard c)) ++
            builtCards targets cardsOf lists := by
        unfold builtCards
        simp only [flatMapL]
        rw [if_pos ht]
      rw [hids] at hnd
      have hnd' := hnd
      rw [← List.append_assoc] at hnd'
      have hcs : ((cardsOf l.id).map (·.id)).Nodup :=
        (List.nodup_append.mp (List.nodup_append.mp hnd).2.1).1
      have hfresh : ∀ c ∈ cardsOf l.id, c.id ∉ cacc.map Prod.fst := by
        intro c hc hmem
        exact (List.nodup_append.mp hnd).2.2 hmem
          (List.mem_append_left _ (List.mem_map.mpr ⟨c, hc, rfl⟩))
      simp only [buildSnapAcc, ht, if_true]
      rw [buildSnapAcc_cards targets cardsOf lists _ _ (by
        rw [addCardsAcc_eq _ _ hcs hfresh]
        simpa using hnd')]
      rw [addCardsAcc_eq _ _ hcs hfresh]
      rw [hcards, List.append_assoc]
    · simp only [buildSnapAcc, ht, Bool.false_eq_true, if_false]
      have hids : builtIds targets cardsOf (l :: lists) =
          builtIds targets cardsOf lists := by
        unfold builtIds
        simp only [flatMapL]
        rw [if_neg ht, List.nil_append]
      have hcards : builtCards targets cardsOf (l :: lists) =
          builtCards targets cardsOf lists := by
        unfold builtCards
        simp only [flatMapL]
        rw [if_neg ht, List.nil_append]
      rw [hids] at hnd
      rw [buildSnapAcc_cards targets cardsOf lists cacc _ hnd, hcards]

theorem createBoardSnapshot_cards (lists : List TrelloListM)
    (cardsOf : String → List TrelloCardM) (listIds : Option (List String))
    (hnd : (builtIds (targetIds lists listIds) cardsOf lists).Nodup) :
    (createBoardSnapshot lists cardsOf listIds).cards =
      builtCards (targetIds lists listIds) cardsOf lists := by
  simp only [createBoardSnapshot]
  rw [buildSnapAcc_cards _ _ lists [] [] (by simpa using hnd)]
  simp

/-! ### Watch-loop lemmas -/

theorem waitLoop_timedOut_store (bid : String) (lnm : List (String × String)) :
    ∀ (cycles : List (BoardSnapshot × List TrelloAction))
      (snap : BoardSnapshot) (store : List (String × BoardSnapshot)),
      (waitLoop bid lnm snap cycles store).1.timedOut = true →
      (waitLoop bid lnm snap cycles store).2 = store
  | [], snap, store, _ => rfl
  | (newSnap, acts) :: rest, snap, store, h => by
    by_cases hc : (detectChanges acts snap newSnap lnm).1.isEmpty
    · rw [waitLoop, if_pos hc] at h ⊢
      exact waitLoop_timedOut_store bid lnm rest _ store h
    · rw [waitLoop, if_neg hc] at h
      cases h

/-! ### Request-wrapper lemmas -/

theorem handleRequest_429 {T : Type} {e : AxiosErr} (he : is429 e = true)
    (rest : List (Outcome T)) :
    handleRequest (Outcome.axios e :: rest) =
      (handleRequest rest).map (fun p => (p.1, p.2 + 1000)) := by
  simp [handleRequest, he]

theorem handleRequest_replicate429 {T : Type} {e : AxiosErr}
    (he : is429 e = true) (n : Nat) (rest : List (Outcome T)) :
    handleRequest (List.replicate n (Outcome.axios e) ++ rest) =
      (handleRequest rest).map (fun p => (p.1, p.2 + 1000 * n)) := by
  induction n with
  | zero =>
    simp only [List.replicate_zero, List.nil_append, Nat.mul_zero, Nat.add_zero]
    cases hq : handleRequest rest with
    | none => simp
    | some p => simp
  | succ n ih =>
    rw [List.replicate_succ, List.cons_append, handleRequest_429 he, ih]
    cases hq : handleRequest rest with
    | none => simp
    | some p =>
      simp only [Option.map_some']
      have harith : p.2 + 1000 * n + 1000 = p.2 + 1000 * (n + 1) := by ring
      rw [harith]

/-! ### Rate-limiter lemmas (spec-modelled) -/

theorem waitForAvailable_grant (t c1 w1 a1 l1 c2 w2 a2 l2 : Nat)
    (h1 : ¬ l1 + w1 ≤ t) (h2 : ¬ l2 + w2 ≤ t) (ha1 : 0 < a1) (ha2 : 0 < a2) :
    waitForAvailable t ⟨⟨c1, w1, a1, l1⟩, ⟨c2, w2, a2, l2⟩⟩ =
      (t, ⟨⟨c1, w1, a1 - 1, l1⟩, ⟨c2, w2, a2 - 1, l2⟩⟩) := by
  simp [waitForAvailable, refillBucket, h1, h2, ha1, ha2]

theorem waitForAvailable_boundary (l w c1 a1 c2 : Nat) (hw : 0 < w)
    (ha1 : 0 < a1) :
    waitForAvailable l ⟨⟨c1, w, a1, l⟩, ⟨c2, w, 0, l⟩⟩ =
      (l + w, ⟨⟨c1, w, c1 - 1, l + w⟩, ⟨c2, w, c2 - 1, l + w⟩⟩) := by
  have hnr : ¬ l + w ≤ l := by omega
  have ha1' : ¬ a1 = 0 := by omega
  have hmax1 : max l (l + w) = l + w := by omega
  have hmax2 : max (l + w) l = l + w := by omega
  simp [waitForAvailable, refillBucket, hnr, ha1', hmax1, hmax2, Nat.lt_irrefl]

theorem trelloStep (t0 k : Nat) :
    waitForAvailable (trelloStateAfter t0 k).2 (trelloStateAfter t0 k).1 =
      ((trelloStateAfter t0 (k + 1)).2, (trelloStateAfter t0 (k + 1)).1) := by
  rcases Nat.eq_zero_or_pos k with rfl | hk
  · have h0 : trelloStateAfter t0 0 = (freshTrelloLimiter t0, t0) := by
      simp [trelloStateAfter]
    rw [h0]
    simp only [freshTrelloLimiter]
    rw [waitForAvailable_grant t0 300 10000 300 t0 100 10000 100 t0
      (by omega) (by omega) (by omega) (by omega)]
    simp only [trelloStateAfter, if_neg (by omega : ¬0 + 1 = 0),
      if_neg (by omega : ¬(0 + 1) % 100 = 0)]
    simp only [Prod.mk.injEq, DualLimiter.mk.injEq, RateBucket.mk.injEq]
    simp only [true_and, and_true]
    omega
  · have hk0 : ¬k = 0 := by omega
    by_cases hr : k % 100 = 0
    · simp only [trelloStateAfter, if_neg hk0, if_pos hr,
        if_neg (by omega : ¬k + 1 = 0), if_neg (by omega : ¬(k + 1) % 100 = 0)]
      rw [waitForAvailable_boundary _ 10000 300 200 100 (by omega) (by omega)]
      simp only [Prod.mk.injEq, DualLimiter.mk.injEq, RateBucket.mk.injEq]
      simp only [true_and, and_true]
      omega
    · simp only [trelloStateAfter, if_neg hk0, if_neg hr,
        if_neg (by omega : ¬k + 1 = 0)]
      rw [waitForAvailable_grant _ 300 10000 (300 - k % 100) _ 100 10000
        (100 - k % 100) _ (by omega) (by omega) (by omega) (by omega)]
      by_cases hr99 : (k + 1) % 100 = 0
      · rw [if_pos hr99]
        simp only [Prod.mk.injEq, DualLimiter.mk.injEq, RateBucket.mk.injEq]
        simp only [true_and, and_true]
        omega
      · rw [if_neg hr99]
        simp only [Prod.mk.injEq, DualLimiter.mk.injEq, RateBucket.mk.injEq]
        simp only [true_and, and_true]
        omega

theorem trelloStateAfter_snd (t0 k : Nat) :
    (trelloStateAfter t0 (k + 1)).2 = t0 + (k / 100) * 10000 := by
  simp only [trelloStateAfter, if_neg (by omega : ¬k + 1 = 0)]
  by_cases h : (k + 1) % 100 = 0
  · rw [if_pos h]
    omega
  · rw [if_neg h]
    omega

theorem runCalls_from (t0 : Nat) : ∀ (n k : Nat),
    runCalls (trelloStateAfter t0 k).1 (trelloStateAfter t0 k).2 n =
      (List.range' k n).map (fun i => t0 + (i / 100) * 10000)
  | 0, _ => rfl
  | n + 1, k => by
    simp only [runCalls, trelloStep t0 k]
    rw [runCalls_from t0 n (k + 1), trelloStateAfter_snd]
    simp [List.range'_succ]

theorem runCalls_trello (t0 N : Nat) :
    runCalls (freshTrelloLimiter t0) t0 N =
      (List.range N).map (fun i => t0 + (i / 100) * 10000) := by
  have h := runCalls_from t0 N 0
  simp only [trelloStateAfter, if_pos rfl] at h
  rw [List.range_eq_range']
  exact h

theorem runCalls_length (L : DualLimiter) (t : Nat) :
    ∀ n, (runCalls L t n).length = n
  | 0 => rfl
  | n + 1 => by simp [runCalls, runCalls_length _ _ n]

theorem runCalls_window (t0 N a : Nat) :
    ((runCalls (freshTrelloLimiter t0) t0 N).countP
      (fun g => decide (a ≤ g) && decide (g < a + 10000))) ≤ 100 := by
  rw [runCalls_trello, List.countP_map, List.countP_eq_length_filter]
  set q : Nat → Bool :=
    (fun g => decide (a ≤ g) && decide (g < a + 10000)) ∘
      (fun i => t0 + i / 100 * 10000) with hq
  by_cases hS : (List.range N).filter q = []
  · rw [hS]
    simp
  · obtain ⟨i0, hi0⟩ := List.exists_mem_of_ne_nil _ hS
    have hmem : ∀ j ∈ (List.range N).filter q,
        j ∈ Finset.Ico (100 * (i0 / 100)) (100 * (i0 / 100) + 100) := by
      intro j hj
      have hj' := (List.mem_filter.mp hj).2
      have hi' := (List.mem_filter.mp hi0).2
      rw [hq] at hj' hi'
      simp only [Function.comp_apply, Bool.and_eq_true, decide_eq_true_eq] at hj' hi'
      have : j / 100 = i0 / 100 := by omega
      simp only [Finset.mem_Ico]
      omega
    have hnd : ((List.range N).filter q).Nodup := (List.nodup_range N).filter _
    calc ((List.range N).filter q).length
        = ((List.range N).filter q).toFinset.card :=
          (List.toFinset_card_of_nodup hnd).symm
      _ ≤ (Finset.Ico (100 * (i0 / 100)) (100 * (i0 / 100) + 100)).card := by
          refine Finset.card_le_card (fun x hx => ?_)
          exact hmem x (List.mem_toFinset.mp hx)
      _ = 100 := by rw [Nat.card_Ico]; omega

/-! ### Per-kind filter computations -/

theorem cardEntryRecords_filter_moved (lnm : List (String × String))
    (cid : String) (newCard oldCard : CardSnapshot) (hcid : newCard.id = cid) :
    (cardEntryRecords lnm newCard (some oldCard)).filter
        (fun r => r.kind == "moved" && r.cardId == cid) =
      if oldCard.idList = newCard.idList then []
      else [CardChange.moved (mkBase newCard lnm) oldCard.idList] := by
  have f1 : (("label_changed" : String) == "moved") = false := rfl
  have f2 : (("description_changed" : String) == "moved") = false := rfl
  simp only [cardEntryRecords]
  by_cases hid : oldCard.idList = newCard.idList <;>
    by_cases hl : joinLabels (sortLabels oldCard.idLabels) =
        joinLabels (sortLabels newCard.idLabels) <;>
      by_cases hd : oldCard.desc = newCard.desc <;>
        simp [hid, hl, hd, CardChange.kind, CardChange.cardId, CardChange.base,
          mkBase, f1, f2, hcid]

theorem cardEntryRecords_filter_label (lnm : List (String × String))
    (cid : String) (newCard oldCard : CardSnapshot) (hcid : newCard.id = cid) :
    (cardEntryRecords lnm newCard (some oldCard)).filter
        (fun r => r.kind == "label_changed" && r.cardId == cid) =
      if joinLabels (sortLabels oldCard.idLabels) =
          joinLabels (sortLabels newCard.idLabels) then []
      else [CardChange.label_changed
        (mkBase { newCard with idLabels := sortLabels newCard.idLabels } lnm)
        (sortLabels oldCard.idLabels)] := by
  have f1 : (("moved" : String) == "label_changed") = false := rfl
  have f2 : (("description_changed" : String) == "label_changed") = false := rfl
  simp only [cardEntryRecords]
  by_cases hid : oldCard.idList = newCard.idList <;>
    by_cases hl : joinLabels (sortLabels oldCard.idLabels) =
        joinLabels (sortLabels newCard.idLabels) <;>
      by_cases hd : oldCard.desc = newCard.desc <;>
        simp [hid, hl, hd, CardChange.kind, CardChange.cardId, CardChange.base,
          mkBase, f1, f2, hcid]

theorem cardEntryRecords_moved_only (lnm : List (String × String))
    (card : CardSnapshot) (l' : String) (h : card.idList ≠ l') :
    cardEntryRecords lnm { card with idList := l' } (some card) =
      [CardChange.moved (mkBase { card with idList := l' } lnm) card.idList] := by
  simp [cardEntryRecords, h]

theorem cardEntryRecords_perm_labels (lnm : List (String × String))
    (card : CardSnapshot) (labels' : List String)
    (h : labels'.Perm card.idLabels) :
    cardEntryRecords lnm { card with idLabels := labels' } (some card) = [] := by
  have hs : sortLabels card.idLabels = sortLabels labels' :=
    sortLabels_eq_of_perm h.symm
  simp [cardEntryRecords, hs]

theorem strAppend_ne_empty (pre suf : String) (h : pre.data ≠ []) :
    pre ++ suf ≠ "" := by
  intro hc
  have hd := congrArg String.data hc
  rw [String.data_append] at hd
  exact h (List.append_eq_nil.mp (by simpa using hd)).1

/-! ### Claims -/

/-- Claim C1: for every pair of snapshots of the same board and every
card id present in both, the detector emits a `moved` record — carrying
the previous list id and the current list id/name — exactly when the
owning-list id differs between old and new; and for two snapshots
differing only in one card's list membership, the per-card pass emits
exactly that one `moved` record and no other per-card records. -/
theorem claim_C1 :
    (∀ (acts : List TrelloAction) (o n : BoardSnapshot)
       (lnm : List (String × String)) (cid : String)
       (newCard oldCard : CardSnapshot),
       (n.cards.map Prod.fst).Nodup →
       (∀ q ∈ n.cards, (q.2).id = q.1) →
       (cid, newCard) ∈ n.cards →
       mapGet o.cards cid = some oldCard →
       ((detectChanges acts o n lnm).1.filter
           (fun r => r.kind == "moved" && r.cardId == cid)) =
         (if oldCard.idList = newCard.idList then []
          else [CardChange.moved (mkBase newCard lnm) oldCard.idList])) ∧
    (∀ (lnm : List (String × String))
       (pre post : List (String × CardSnapshot)) (cid l' : String)
       (card : CardSnapshot),
       ((pre ++ (cid, card) :: post).map Prod.fst).Nodup →
       card.idList ≠ l' →
       (cardPass lnm (pre ++ (cid, { card with idList := l' }) :: post)
           (pre ++ (cid, card) :: post)).1 =
         [CardChange.moved (mkBase { card with idList := l' } lnm)
           card.idList]) := by
  constructor
  · intro acts o n lnm cid newCard oldCard hnd hw hmem hold
    have hcid : newCard.id = cid := hw (cid, newCard) hmem
    rw [detectChanges_filter_single (fun r => r.kind == "moved" && r.cardId == cid)
      hnd hw hmem (fun b cm fl => rfl)
      (fun r hr => eq_of_beq (Bool.and_eq_true_iff.mp hr).2), hold]
    exact cardEntryRecords_filter_moved lnm cid newCard oldCard hcid
  · intro lnm pre post cid l' card hnd hne
    rw [cardPass_single_mod lnm pre post cid card { card with idList := l' } hnd]
    exact cardEntryRecords_moved_only lnm card l' hne

/-- Claim C1 witness: a concrete one-card board whose card moved from
list L1 to list L2. -/
theorem claim_C1_witness :
    ((detectChanges [] ⟨[("c1", ⟨"c1", "n", "d", "L1", ["x"]⟩)], [], none⟩
         ⟨[("c1", ⟨"c1", "n", "d", "L2", ["x"]⟩)], [], none⟩
         [("L2", "Done")]).1.filter
        (fun r => r.kind == "moved" && r.cardId == "c1")) =
      (if ("L1" : String) = "L2" then []
       else [CardChange.moved
         (mkBase ⟨"c1", "n", "d", "L2", ["x"]⟩ [("L2", "Done")]) "L1"]) ∧
    (cardPass [("L2", "Done")]
        ([] ++ ("c1", (⟨"c1", "n", "d", "L2", ["x"]⟩ : CardSnapshot)) :: [])
        ([] ++ ("c1", (⟨"c1", "n", "d", "L1", ["x"]⟩ : CardSnapshot)) :: [])).1 =
      [CardChange.moved
        (mkBase ⟨"c1", "n", "d", "L2", ["x"]⟩ [("L2", "Done")]) "L1"] := by
  constructor
  · exact claim_C1.1 [] ⟨[("c1", ⟨"c1", "n", "d", "L1", ["x"]⟩)], [], none⟩
      ⟨[("c1", ⟨"c1", "n", "d", "L2", ["x"]⟩)], [], none⟩ [("L2", "Done")]
      "c1" ⟨"c1", "n", "d", "L2", ["x"]⟩ ⟨"c1", "n", "d", "L1", ["x"]⟩
      (by decide) (by decide) (by decide) (by decide)
  · exact claim_C1.2 [("L2", "Done")] [] [] "c1" "L2"
      ⟨"c1", "n", "d", "L1", ["x"]⟩ (by decide) (by decide)

/-- Claim C2: a card id present in the new snapshot but absent from the
old one gets exactly one per-card record, of type `added` (none of
`moved`, `label_changed`, `description_changed`); a card id absent from
the new snapshot yields no record at all. -/
theorem claim_C2 :
    (∀ (acts : List TrelloAction) (o n : BoardSnapshot)
       (lnm : List (String × String)) (cid : String) (newCard : CardSnapshot),
       (n.cards.map Prod.fst).Nodup →
       (∀ q ∈ n.cards, (q.2).id = q.1) →
       (cid, newCard) ∈ n.cards →
       mapGet o.cards cid = none →
       ((detectChanges acts o n lnm).1.filter
           (fun r => r.cardId == cid && !(r.kind == "commented"))) =
         [CardChange.added (mkBase newCard lnm)]) ∧
    (∀ (acts : List TrelloAction) (o n : BoardSnapshot)
       (lnm : List (String × String)) (cid : String),
       (n.cards.map Prod.fst).Nodup →
       (∀ q ∈ n.cards, (q.2).id = q.1) →
       cid ∉ n.cards.map Prod.fst →
       ((detectChanges acts o n lnm).1.filter (fun r => r.cardId == cid)) =
         []) := by
  constructor
  · intro acts o n lnm cid newCard hnd hw hmem hold
    have hcid : newCard.id = cid := hw (cid, newCard) hmem
    rw [detectChanges_filter_single
      (fun r => r.cardId == cid && !(r.kind == "commented")) hnd hw hmem
      (fun b cm fl => by simp [CardChange.kind])
      (fun r hr => eq_of_beq (Bool.and_eq_true_iff.mp hr).1), hold]
    simp [cardEntryRecords, CardChange.kind, CardChange.cardId, CardChange.base,
      mkBase, hcid]
  · intro acts o n lnm cid hnd hw habs
    refine List.filter_eq_nil_iff.mpr (fun r hr hp => ?_)
    have := mem_detectChanges_cardId hnd hw hr
    rw [eq_of_beq hp] at this
    exact habs this

/-- Claim C2 witness: a fresh card `c2` appears in the new snapshot; a
card `c3` present only in the old snapshot yields no record. -/
theorem claim_C2_witness :
    ((detectChanges [] ⟨[], [], none⟩
         ⟨[("c2", ⟨"c2", "Card Two", "d", "L1", []⟩)], [], none⟩ []).1.filter
        (fun r => r.cardId == "c2" && !(r.kind == "commented"))) =
      [CardChange.added (mkBase ⟨"c2", "Card Two", "d", "L1", []⟩ [])] ∧
    ((detectChanges [] ⟨[("c3", ⟨"c3", "Old", "d", "L1", []⟩)], [], none⟩
         ⟨[("c2", ⟨"c2", "Card Two", "d", "L1", []⟩)], [], none⟩ []).1.filter
        (fun r => r.cardId == "c3")) = [] := by
  constructor
  · exact claim_C2.1 [] ⟨[], [], none⟩
      ⟨[("c2", ⟨"c2", "Card Two", "d", "L1", []⟩)], [], none⟩ [] "c2"
      ⟨"c2", "Card Two", "d", "L1", []⟩ (by decide) (by decide) (by decide) rfl
  · exact claim_C2.2 [] ⟨[("c3", ⟨"c3", "Old", "d", "L1", []⟩)], [], none⟩
      ⟨[("c2", ⟨"c2", "Card Two", "d", "L1", []⟩)], [], none⟩ [] "c3"
      (by decide) (by decide) (by decide)

/-- Claim C3: label comparison is order-insensitive — for a card present
in both snapshots a `label_changed` record (carrying the previous label
set, sorted) is emitted exactly when the sorted comma-joined encodings of
the two label lists differ; `sortLabels` is a permutation, and two
snapshots differing only in the insertion order of one card's identical
label set produce no per-card record at all. -/
theorem claim_C3 :
    (∀ (acts : List TrelloAction) (o n : BoardSnapshot)
       (lnm : List (String × String)) (cid : String)
       (newCard oldCard : CardSnapshot),
       (n.cards.map Prod.fst).Nodup →
       (∀ q ∈ n.cards, (q.2).id = q.1) →
       (cid, newCard) ∈ n.cards →
       mapGet o.cards cid = some oldCard →
       ((detectChanges acts o n lnm).1.filter
           (fun r => r.kind == "label_changed" && r.cardId == cid)) =
         (if joinLabels (sortLabels oldCard.idLabels) =
             joinLabels (sortLabels newCard.idLabels) then []
          else [CardChange.label_changed
            (mkBase { newCard with idLabels := sortLabels newCard.idLabels }
              lnm)
            (sortLabels oldCard.idLabels)])) ∧
    (∀ l : List String, (sortLabels l).Perm l) ∧
    (∀ (lnm : List (String × String))
       (pre post : List (String × CardSnapshot)) (cid : String)
       (card : CardSnapshot) (labels' : List String),
       ((pre ++ (cid, card) :: post).map Prod.fst).Nodup →
       labels'.Perm card.idLabels →
       (cardPass lnm (pre ++ (cid, { card with idLabels := labels' }) :: post)
           (pre ++ (cid, card) :: post)).1 = []) := by
  refine ⟨?_, sortLabels_perm, ?_⟩
  · intro acts o n lnm cid newCard oldCard hnd hw hmem hold
    have hcid : newCard.id = cid := hw (cid, newCard) hmem
    rw [detectChanges_filter_single
      (fun r => r.kind == "label_changed" && r.cardId == cid) hnd hw hmem
      (fun b cm fl => rfl)
      (fun r hr => eq_of_beq (Bool.and_eq_true_iff.mp hr).2), hold]
    exact cardEntryRecords_filter_label lnm cid newCard oldCard hcid
  · intro lnm pre post cid card labels' hnd hperm
    rw [cardPass_single_mod lnm pre post cid card
      { card with idLabels := labels' } hnd]
    exact cardEntryRecords_perm_labels lnm card labels' hperm

/-- Claim C3 witness: identical label set in different insertion order
produces no record; a genuinely different label set produces exactly one
`label_changed` record carrying the sorted previous set. -/
theorem claim_C3_witness :
    ((detectChanges [] ⟨[("c1", ⟨"c1", "n", "d", "L1", ["a", "b"]⟩)], [], none⟩
         ⟨[("c1", ⟨"c1", "n", "d", "L1", ["a", "c"]⟩)], [], none⟩ []).1.filter
        (fun r => r.kind == "label_changed" && r.cardId == "c1")) =
      (if joinLabels (sortLabels ["a", "b"]) =
          joinLabels (sortLabels ["a", "c"]) then []
       else [CardChange.label_changed
         (mkBase ⟨"c1", "n", "d", "L1", sortLabels ["a", "c"]⟩ [])
         (sortLabels ["a", "b"])]) ∧
    (sortLabels ["b", "a"]).Perm ["b", "a"] ∧
    (cardPass []
        ([] ++ ("c1", (⟨"c1", "n", "d", "L1", ["b", "a"]⟩ : CardSnapshot)) :: [])
        ([] ++ ("c1", (⟨"c1", "n", "d", "L1", ["a", "b"]⟩ : CardSnapshot)) :: [])).1 =
      [] := by
  refine ⟨?_, claim_C3.2.1 ["b", "a"], ?_⟩
  · exact claim_C3.1 [] ⟨[("c1", ⟨"c1", "n", "d", "L1", ["a", "b"]⟩)], [], none⟩
      ⟨[("c1", ⟨"c1", "n", "d", "L1", ["a", "c"]⟩)], [], none⟩ [] "c1"
      ⟨"c1", "n", "d", "L1", ["a", "c"]⟩ ⟨"c1", "n", "d", "L1", ["a", "b"]⟩
      (by decide) (by decide) (by decide) rfl
  · exact claim_C3.2.2 [] [] [] "c1" ⟨"c1", "n", "d", "L1", ["a", "b"]⟩
      ["b", "a"] (by decide) (by decide)

/-- Claim C4 counterexample: with a recorded last-seen activity id that
is the empty string, the first fetched entry's id `""` is `<=` the
last-seen id, yet the scan does not stop — it emits a `commented` record
(the JS guard `oldActionId && ...` treats the empty string as absent). -/
theorem claim_C4_counterexample :
    strLe ("" : String) "" = true ∧
    scanComments (some "") [("c1", ⟨"c1", "n", "d", "L1", []⟩)] []
        [⟨"", "commentCard", ⟨some "hi", some ⟨"c1", "n"⟩⟩⟩] =
      [CardChange.commented ⟨"c1", "n", "d", "L1", "", []⟩ "hi" false] := by
  constructor
  · rfl
  · rfl

/-- Claim C4 (amended): the comment scan equals the takeWhile/filterMap
form — it emits exactly one `commented` record per scanned `commentCard`
entry whose card exists in the new snapshot, scanning newest-first and
stopping at the first entry whose id is `<=` the last-seen activity id
when a NON-EMPTY one exists (an empty-string last-seen id is treated as
absent); consequently, with a non-empty last-seen id, if every fetched
entry's id is `<=` it, zero `commented` records are emitted; and every
emitted record's `isClaudeComment` flag holds exactly when the comment
text contains the automation marker. -/
theorem claim_C4 :
    (∀ (oldId : Option String) (cards : List (String × CardSnapshot))
       (lnm : List (String × String)) (acts : List TrelloAction),
       scanComments oldId cards lnm acts =
         specCommentRecords oldId cards lnm acts) ∧
    (∀ (s : String) (cards : List (String × CardSnapshot))
       (lnm : List (String × String)) (acts : List TrelloAction),
       s ≠ "" → (∀ a ∈ acts, strLe a.id s = true) →
       scanComments (some s) cards lnm acts = []) ∧
    (∀ (oldId : Option String) (cards : List (String × CardSnapshot))
       (lnm : List (String × String)) (acts : List TrelloAction)
       (b : ChangeBase) (cm : String) (fl : Bool),
       CardChange.commented b cm fl ∈ scanComments oldId cards lnm acts →
       fl = strContains cm claudeMarker) := by
  refine ⟨scanComments_eq_spec, ?_, ?_⟩
  · intro s cards lnm acts hs hall
    cases acts with
    | nil => rfl
    | cons a rest =>
      have hstop : stopScan (some s) a = true := by
        simp [stopScan, truthyS, hs, hall a (List.mem_cons_self a rest)]
      rw [scanComments, if_pos hstop]
  · intro oldId cards lnm acts b cm fl h
    obtain ⟨k, card, text, hg, hr⟩ := mem_scanComments h
    simp only [mkCommented, CardChange.commented.injEq] at hr
    rw [hr.2.2, hr.2.1]

/-- Claim C4 witness: a non-empty last-seen id `"05"` stops the scan of
an all-older feed (zero records); the scan/spec equality and the marker
flag at a concrete newer comment. -/
theorem claim_C4_witness :
    scanComments (some "05") [("c1", ⟨"c1", "n", "d", "L1", []⟩)] []
        [⟨"04", "commentCard", ⟨some "old", some ⟨"c1", "n"⟩⟩⟩] = [] ∧
    scanComments (some "05") [("c1", ⟨"c1", "n", "d", "L1", []⟩)] []
        [⟨"07", "commentCard", ⟨some "hi 🤖 by Claude Code", some ⟨"c1", "n"⟩⟩⟩] =
      specCommentRecords (some "05") [("c1", ⟨"c1", "n", "d", "L1", []⟩)] []
        [⟨"07", "commentCard", ⟨some "hi 🤖 by Claude Code", some ⟨"c1", "n"⟩⟩⟩] ∧
    ((true : Bool) =
      strContains "hi 🤖 by Claude Code" claudeMarker) := by
  refine ⟨?_, ?_, ?_⟩
  · exact claim_C4.2.1 "05" [("c1", ⟨"c1", "n", "d", "L1", []⟩)] []
      [⟨"04", "commentCard", ⟨some "old", some ⟨"c1", "n"⟩⟩⟩]
      (by decide) (by decide)
  · exact claim_C4.1 (some "05") [("c1", ⟨"c1", "n", "d", "L1", []⟩)] []
      [⟨"07", "commentCard", ⟨some "hi 🤖 by Claude Code", some ⟨"c1", "n"⟩⟩⟩]
  · exact claim_C4.2.2 (some "05") [("c1", ⟨"c1", "n", "d", "L1", []⟩)] []
      [⟨"07", "commentCard", ⟨some "hi 🤖 by Claude Code", some ⟨"c1", "n"⟩⟩⟩]
      ⟨"c1", "n", "d", "L1", "", []⟩ "hi 🤖 by Claude Code" true (by decide)

/-- Claim C5: the change list is the comment records (in activity scan
order) followed by the per-card records in the iteration order of the new
snapshot's card map; and the snapshot builder's card map lists the
targeted lists' cards in list order then per-list fetch order. -/
theorem claim_C5 :
    (∀ (acts : List TrelloAction) (o n : BoardSnapshot)
       (lnm : List (String × String)),
       (n.cards.map Prod.fst).Nodup →
       (detectChanges acts o n lnm).1 =
         scanComments o.lastActionId n.cards lnm acts ++
           flatMapL (fun e => cardEntryRecords lnm e.2 (mapGet o.cards e.1))
             n.cards) ∧
    (∀ (lists : List TrelloListM) (cardsOf : String → List TrelloCardM)
       (listIds : Option (List String)),
       (builtIds (targetIds lists listIds) cardsOf lists).Nodup →
       (createBoardSnapshot lists cardsOf listIds).cards =
         builtCards (targetIds lists listIds) cardsOf lists) :=
  ⟨detectChanges_changes, createBoardSnapshot_cards⟩

/-- Claim C5 witness: a two-list board with one card each, plus a
comment action; output is the comment record followed by the per-card
records in builder insertion order. -/
theorem claim_C5_witness :
    (detectChanges [⟨"09", "commentCard", ⟨some "yo", some ⟨"c1", "n"⟩⟩⟩]
        ⟨[], [], none⟩
        ⟨[("c1", ⟨"c1", "n", "d", "L1", []⟩), ("c2", ⟨"c2", "m", "e", "L2", []⟩)],
         [], none⟩ []).1 =
      scanComments none
        [("c1", ⟨"c1", "n", "d", "L1", []⟩), ("c2", ⟨"c2", "m", "e", "L2", []⟩)]
        [] [⟨"09", "commentCard", ⟨some "yo", some ⟨"c1", "n"⟩⟩⟩] ++
        flatMapL
          (fun e => cardEntryRecords [] e.2 (mapGet ([] : List (String × CardSnapshot)) e.1))
          [("c1", ⟨"c1", "n", "d", "L1", []⟩), ("c2", ⟨"c2", "m", "e", "L2", []⟩)] ∧
    (createBoardSnapshot [⟨"L1", "To Do"⟩, ⟨"L2", "Done"⟩]
        (fun lid => if lid = "L1" then [⟨"c1", "n", "d", "L1", []⟩] else
          [⟨"c2", "m", "e", "L2", []⟩]) none).cards =
      builtCards (targetIds [⟨"L1", "To Do"⟩, ⟨"L2", "Done"⟩] none)
        (fun lid => if lid = "L1" then [⟨"c1", "n", "d", "L1", []⟩] else
          [⟨"c2", "m", "e", "L2", []⟩])
        [⟨"L1", "To Do"⟩, ⟨"L2", "Done"⟩] := by
  constructor
  · exact claim_C5.1 [⟨"09", "commentCard", ⟨some "yo", some ⟨"c1", "n"⟩⟩⟩]
      ⟨[], [], none⟩
      ⟨[("c1", ⟨"c1", "n", "d", "L1", []⟩), ("c2", ⟨"c2", "m", "e", "L2", []⟩)],
       [], none⟩ [] (by decide)
  · exact claim_C5.2 [⟨"L1", "To Do"⟩, ⟨"L2", "Done"⟩]
      (fun lid => if lid = "L1" then [⟨"c1", "n", "d", "L1", []⟩] else
        [⟨"c2", "m", "e", "L2", []⟩]) none (by decide)

/-- Claim C6 (rate limiter, modelled from the spec — the implementation
file is not under `src/`): for any N sequential calls awaiting a fresh
dual limiter (300 per 10s per key, 100 per 10s per token), every call
completes (the run produces exactly N completion times), and no more than
100 ≤ min(300, 100) completions fall inside any half-open 10-second
window — so neither bucket's ceiling is ever exceeded. The model's
`runCalls` awaits `waitForAvailable` before each call completes,
mirroring the axios request interceptor. -/
theorem claim_C6 :
    (∀ t0 N : Nat, (runCalls (freshTrelloLimiter t0) t0 N).length = N) ∧
    (∀ t0 N a : Nat,
      ((runCalls (freshTrelloLimiter t0) t0 N).countP
        (fun g => decide (a ≤ g) && decide (g < a + 10000))) ≤ 100) :=
  ⟨fun t0 N => runCalls_length (freshTrelloLimiter t0) t0 N,
   fun t0 N a => runCalls_window t0 N a⟩

/-- Claim C7: `handleRequest` retries the same call after a 1-second wait
on an HTTP 429, at any recursion depth; any other axios error raises a
single descriptive failure carrying the upstream message (response data
message if present, else the error message) with no retry; non-axios
errors are rethrown unchanged with no retry. -/
theorem claim_C7 :
    (∀ (T : Type) (e : AxiosErr) (rest : List (Outcome T)), is429 e = true →
      handleRequest (Outcome.axios e :: rest) =
        (handleRequest rest).map (fun p => (p.1, p.2 + 1000))) ∧
    (∀ (T : Type) (e : AxiosErr) (n : Nat) (rest : List (Outcome T)),
      is429 e = true →
      handleRequest (List.replicate n (Outcome.axios e) ++ rest) =
        (handleRequest rest).map (fun p => (p.1, p.2 + 1000 * n))) ∧
    (∀ (T : Type) (e : AxiosErr) (rest : List (Outcome T)), is429 e = false →
      handleRequest (Outcome.axios e :: rest) =
        some (.error (.apiError ("Trello API error: " ++ axiosMessage e)), 0)) ∧
    (∀ (T : Type) (m : String) (rest : List (Outcome T)),
      handleRequest (Outcome.other m :: rest) =
        some (.error (.rethrown m), 0)) := by
  refine ⟨fun T e rest he => handleRequest_429 he rest,
    fun T e n rest he => handleRequest_replicate429 he n rest, ?_, ?_⟩
  · intro T e rest he
    simp [handleRequest, he]
  · intro T m rest
    rfl

/-- Claim C7 witness: two 429 rejections followed by a success produce
the success after 2 seconds of accumulated back-off; a 500 maps to the
descriptive failure immediately; a plain error is rethrown. -/
theorem claim_C7_witness :
    handleRequest
        (List.replicate 2 (Outcome.axios ⟨some ⟨429, none⟩, "rate"⟩) ++
          [Outcome.ok (5 : Nat)]) =
      (handleRequest [Outcome.ok (5 : Nat)]).map
        (fun p => (p.1, p.2 + 1000 * 2)) ∧
    handleRequest (Outcome.axios ⟨some ⟨500, some "boom"⟩, "m"⟩ ::
        ([] : List (Outcome Nat))) =
      some (.error (.apiError ("Trello API error: " ++
        axiosMessage ⟨some ⟨500, some "boom"⟩, "m"⟩)), 0) ∧
    handleRequest (Outcome.other "oops" :: ([] : List (Outcome Nat))) =
      some (.error (.rethrown "oops"), 0) := by
  refine ⟨?_, ?_, ?_⟩
  · exact claim_C7.2.1 Nat ⟨some ⟨429, none⟩, "rate"⟩ 2 [Outcome.ok 5] rfl
  · exact claim_C7.2.2.1 Nat ⟨some ⟨500, some "boom"⟩, "m"⟩ [] rfl
  · exact claim_C7.2.2.2 Nat "oops" []

/-- Claim C8 counterexample: `detectChanges` is not side-effect free on
its inputs — a card present in both snapshots with label array
`["b", "a"]` has that array sorted in place to `["a", "b"]` in the old
snapshot (and likewise in the new one), so the card entries are not
identical before and after the run. -/
theorem claim_C8_counterexample :
    (detectChanges [] ⟨[("c1", ⟨"c1", "n", "d", "L1", ["b", "a"]⟩)], [], none⟩
        ⟨[("c1", ⟨"c1", "n", "d", "L1", ["b", "a"]⟩)], [], none⟩ []).2.1.cards ≠
      [("c1", ⟨"c1", "n", "d", "L1", ["b", "a"]⟩)] ∧
    (detectChanges [] ⟨[("c1", ⟨"c1", "n", "d", "L1", ["b", "a"]⟩)], [], none⟩
        ⟨[("c1", ⟨"c1", "n", "d", "L1", ["b", "a"]⟩)], [], none⟩ []).2.1.cards =
      [("c1", ⟨"c1", "n", "d", "L1", ["a", "b"]⟩)] ∧
    (detectChanges [] ⟨[("c1", ⟨"c1", "n", "d", "L1", ["b", "a"]⟩)], [], none⟩
        ⟨[("c1", ⟨"c1", "n", "d", "L1", ["b", "a"]⟩)], [], none⟩ []).2.2.cards =
      [("c1", ⟨"c1", "n", "d", "L1", ["a", "b"]⟩)] := by
  refine ⟨by decide, by decide, by decide⟩

/-- Claim C8 (amended): `detectChanges` mutates the card entries of both
input snapshots exactly by sorting the label arrays of cards present in
both (the in-place `sort()`): the old snapshot's map keeps every entry,
with present-in-new keys getting `sortCard`; the new snapshot's map is
the entry-wise `sortCard` of present-in-old entries; `sortCard` permutes
only the label array, leaving id, name, description and owning list
unchanged; the list-name maps of both snapshots are untouched. -/
theorem claim_C8 :
    (∀ (acts : List TrelloAction) (o n : BoardSnapshot)
       (lnm : List (String × String)) (k : String),
       (n.cards.map Prod.fst).Nodup →
       mapGet (detectChanges acts o n lnm).2.1.cards k =
         (if k ∈ n.cards.map Prod.fst then (mapGet o.cards k).map sortCard
          else mapGet o.cards k)) ∧
    (∀ (acts : List TrelloAction) (o n : BoardSnapshot)
       (lnm : List (String × String)),
       (n.cards.map Prod.fst).Nodup →
       (detectChanges acts o n lnm).2.2.cards =
         n.cards.map (fun e =>
           if (mapGet o.cards e.1).isSome then (e.1, sortCard e.2) else e)) ∧
    (∀ c : CardSnapshot, (sortCard c).id = c.id ∧ (sortCard c).name = c.name ∧
       (sortCard c).desc = c.desc ∧ (sortCard c).idList = c.idList ∧
       (sortCard c).idLabels.Perm c.idLabels) ∧
    (∀ (acts : List TrelloAction) (o n : BoardSnapshot)
       (lnm : List (String × String)),
       (detectChanges acts o n lnm).2.1.lists = o.lists ∧
       (detectChanges acts o n lnm).2.2.lists = n.lists) := by
  refine ⟨?_, ?_, ?_, ?_⟩
  · intro acts o n lnm k hnd
    exact cardPass_oldMap lnm n.cards o.cards hnd k
  · intro acts o n lnm hnd
    exact cardPass_newMap lnm n.cards o.cards hnd
  · intro c
    exact ⟨rfl, rfl, rfl, rfl, sortLabels_perm c.idLabels⟩
  · intro acts o n lnm
    exact ⟨rfl, rfl⟩

/-- Claim C8 (amended) witness: the concrete one-card board with labels
`["b", "a"]` after the run. -/
theorem claim_C8_witness :
    mapGet (detectChanges [] ⟨[("c1", ⟨"c1", "n", "d", "L1", ["b", "a"]⟩)], [], none⟩
        ⟨[("c1", ⟨"c1", "n", "d", "L1", ["b", "a"]⟩)], [], none⟩ []).2.1.cards "c1" =
      (if "c1" ∈ [("c1", (⟨"c1", "n", "d", "L1", ["b", "a"]⟩ : CardSnapshot))].map
          Prod.fst then
        (mapGet [("c1", (⟨"c1", "n", "d", "L1", ["b", "a"]⟩ : CardSnapshot))]
          "c1").map sortCard
       else mapGet [("c1", (⟨"c1", "n", "d", "L1", ["b", "a"]⟩ : CardSnapshot))]
         "c1") ∧
    (sortCard ⟨"c1", "n", "d", "L1", ["b", "a"]⟩).idLabels.Perm ["b", "a"] := by
  constructor
  · exact claim_C8.1 [] ⟨[("c1", ⟨"c1", "n", "d", "L1", ["b", "a"]⟩)], [], none⟩
      ⟨[("c1", ⟨"c1", "n", "d", "L1", ["b", "a"]⟩)], [], none⟩ [] "c1" (by decide)
  · exact (claim_C8.2.2.1 ⟨"c1", "n", "d", "L1", ["b", "a"]⟩).2.2.2.2

/-- Claim C9 counterexample: a watch whose single poll cycle captures a
changed-but-undetected snapshot (only the card's name differs, which the
detector does not compare) times out with the process-wide store still
holding the *initial* snapshot — the store is not updated in no-change
cycles, so it does not retain the latest captured snapshot. -/
theorem claim_C9_counterexample :
    (waitForChanges "b" ⟨[("c1", ⟨"c1", "n", "d", "L1", ["x"]⟩)], [], none⟩
        [(⟨[("c1", ⟨"c1", "n2", "d", "L1", ["x"]⟩)], [], none⟩, [])] []
        []).1.timedOut = true ∧
    (waitForChanges "b" ⟨[("c1", ⟨"c1", "n", "d", "L1", ["x"]⟩)], [], none⟩
        [(⟨[("c1", ⟨"c1", "n2", "d", "L1", ["x"]⟩)], [], none⟩, [])] [] []).2 =
      [("b", ⟨[("c1", ⟨"c1", "n", "d", "L1", ["x"]⟩)], [], none⟩)] ∧
    (⟨[("c1", ⟨"c1", "n", "d", "L1", ["x"]⟩)], [], none⟩ : BoardSnapshot) ≠
      ⟨[("c1", ⟨"c1", "n2", "d", "L1", ["x"]⟩)], [], none⟩ := by
  refine ⟨by decide, by decide, by decide⟩

/-- Claim C9 (amended): each no-change poll cycle replaces only the local
comparison snapshot (with the detector-updated new snapshot) and leaves
the process-wide store untouched; the store is written at watch start
with the initial snapshot and again, when changes are found, with that
cycle's final snapshot; a watch that times out leaves the store holding
the initial snapshot. -/
theorem claim_C9 :
    (∀ (bid : String) (lnm : List (String × String))
       (snap newSnap : BoardSnapshot) (acts : List TrelloAction)
       (rest : List (BoardSnapshot × List TrelloAction))
       (store : List (String × BoardSnapshot)),
       (detectChanges acts snap newSnap lnm).1 = [] →
       waitLoop bid lnm snap ((newSnap, acts) :: rest) store =
         waitLoop bid lnm (detectChanges acts snap newSnap lnm).2.2 rest
           store) ∧
    (∀ (bid : String) (lnm : List (String × String))
       (snap newSnap : BoardSnapshot) (acts : List TrelloAction)
       (rest : List (BoardSnapshot × List TrelloAction))
       (store : List (String × BoardSnapshot)),
       (detectChanges acts snap newSnap lnm).1 ≠ [] →
       waitLoop bid lnm snap ((newSnap, acts) :: rest) store =
         ({ changes := (detectChanges acts snap newSnap lnm).1,
            timedOut := false },
          mapSet store bid (detectChanges acts snap newSnap lnm).2.2)) ∧
    (∀ (bid : String) (s0 : BoardSnapshot)
       (cycles : List (BoardSnapshot × List TrelloAction))
       (lnm : List (String × String))
       (store : List (String × BoardSnapshot)),
       (waitForChanges bid s0 cycles lnm store).1.timedOut = true →
       (waitForChanges bid s0 cycles lnm store).2 = mapSet store bid s0) := by
  refine ⟨?_, ?_, ?_⟩
  · intro bid lnm snap newSnap acts rest store h
    simp only [waitLoop, h, List.isEmpty_nil, if_true]
  · intro bid lnm snap newSnap acts rest store h
    have hne : (detectChanges acts snap newSnap lnm).1.isEmpty = false := by
      cases hc : (detectChanges acts snap newSnap lnm).1 with
      | nil => exact absurd hc h
      | cons a l => rfl
    simp only [waitLoop, hne, Bool.false_eq_true, if_false]
  · intro bid s0 cycles lnm store h
    exact waitLoop_timedOut_store bid lnm cycles s0 (mapSet store bid s0) h

/-- Claim C9 (amended) witness: a no-change cycle recurses with the
updated local snapshot and unchanged store; a cycle that finds an added
card returns it and writes the store; the timed-out concrete run leaves
the store holding the initial snapshot. -/
theorem claim_C9_witness :
    waitLoop "b" [] ⟨[("c1", ⟨"c1", "n", "d", "L1", []⟩)], [], none⟩
        [(⟨[("c1", ⟨"c1", "n", "d", "L1", []⟩)], [], none⟩, [])] [] =
      waitLoop "b" []
        (detectChanges [] ⟨[("c1", ⟨"c1", "n", "d", "L1", []⟩)], [], none⟩
          ⟨[("c1", ⟨"c1", "n", "d", "L1", []⟩)], [], none⟩ []).2.2 [] [] ∧
    waitLoop "b" [] ⟨[], [], none⟩
        [(⟨[("c1", ⟨"c1", "n", "d", "L1", []⟩)], [], none⟩, [])] [] =
      ({ changes := (detectChanges [] ⟨[], [], none⟩
            ⟨[("c1", ⟨"c1", "n", "d", "L1", []⟩)], [], none⟩ []).1,
         timedOut := false },
       mapSet [] "b" (detectChanges [] ⟨[], [], none⟩
          ⟨[("c1", ⟨"c1", "n", "d", "L1", []⟩)], [], none⟩ []).2.2) ∧
    (waitForChanges "b" ⟨[("c1", ⟨"c1", "n", "d", "L1", ["x"]⟩)], [], none⟩
        [(⟨[("c1", ⟨"c1", "n2", "d", "L1", ["x"]⟩)], [], none⟩, [])] [] []).2 =
      mapSet [] "b" ⟨[("c1", ⟨"c1", "n", "d", "L1", ["x"]⟩)], [], none⟩ := by
  refine ⟨?_, ?_, ?_⟩
  · exact claim_C9.1 "b" [] ⟨[("c1", ⟨"c1", "n", "d", "L1", []⟩)], [], none⟩
      ⟨[("c1", ⟨"c1", "n", "d", "L1", []⟩)], [], none⟩ [] [] [] (by decide)
  · exact claim_C9.2.1 "b" [] ⟨[], [], none⟩
      ⟨[("c1", ⟨"c1", "n", "d", "L1", []⟩)], [], none⟩ [] [] [] (by decide)
  · exact claim_C9.2.2 "b" ⟨[("c1", ⟨"c1", "n", "d", "L1", ["x"]⟩)], [], none⟩
      [(⟨[("c1", ⟨"c1", "n2", "d", "L1", ["x"]⟩)], [], none⟩, [])] [] []
      (by decide)

/-- Claim C10: `deleteLocalAttachment` succeeds — and deletes exactly the
resolved target — only when the attachment directory is configured (set
and non-empty), the resolved target extends the resolved directory plus
the path separator, and the file exists; in every other case it returns
`success := false` with a non-empty message and the file system is
unchanged; with a non-empty separator, success implies the target is not
the attachment directory itself. -/
theorem claim_C10 :
    ∀ (resolve : String → String) (sep : String)
      (attachmentDir : Option String) (fsPaths : List String)
      (filePath : String),
      ((deleteLocalAttachment resolve sep attachmentDir fsPaths
          filePath).1.success = true ↔
        (truthyS attachmentDir = true ∧
          strStartsWith (resolve filePath)
            (resolve (attachmentDir.getD "") ++ sep) = true ∧
          fsPaths.contains (resolve filePath) = true)) ∧
      ((deleteLocalAttachment resolve sep attachmentDir fsPaths
          filePath).1.success = true →
        (deleteLocalAttachment resolve sep attachmentDir fsPaths
          filePath).2 = fsPaths.erase (resolve filePath)) ∧
      ((deleteLocalAttachment resolve sep attachmentDir fsPaths
          filePath).1.success = false →
        (deleteLocalAttachment resolve sep attachmentDir fsPaths
          filePath).2 = fsPaths ∧
        (deleteLocalAttachment resolve sep attachmentDir fsPaths
          filePath).1.message ≠ "") ∧
      (sep ≠ "" →
        (deleteLocalAttachment resolve sep attachmentDir fsPaths
          filePath).1.success = true →
        resolve filePath ≠ resolve (attachmentDir.getD "")) := by
  intro resolve sep attachmentDir fsPaths filePath
  by_cases h1 : truthyS attachmentDir
  · by_cases h2 : strStartsWith (resolve filePath)
        (resolve (attachmentDir.getD "") ++ sep)
    · by_cases h3 : fsPaths.contains (resolve filePath)
      · have h3m : resolve filePath ∈ fsPaths := by simpa using h3
        have hr : deleteLocalAttachment resolve sep attachmentDir fsPaths
            filePath =
            ({ success := true, message := "Deleted: " ++ resolve filePath },
             fsPaths.erase (resolve filePath)) := by
          simp [deleteLocalAttachment, h1, h2, h3m]
        rw [hr]
        refine ⟨?_, ?_, ?_, ?_⟩
        · simp [h1, h2, h3m]
        · intro _
          rfl
        · intro hc
          exact Bool.noConfusion hc
        · intro hsep _ heq
          have hpre : ((resolve (attachmentDir.getD "") ++ sep).data).IsPrefix
              ((resolve filePath).data) :=
            List.isPrefixOf_iff_prefix.mp h2
          rw [heq] at hpre
          have hlen := hpre.length_le
          rw [String.data_append, List.length_append] at hlen
          have hnil : sep.data = [] :=
            List.eq_nil_of_length_eq_zero (by omega : sep.data.length = 0)
          exact hsep (strExt hnil)
      · have h3m : resolve filePath ∉ fsPaths := by simpa using h3
        have hr : deleteLocalAttachment resolve sep attachmentDir fsPaths
            filePath =
            ({ success := false,
               message := "File not found: " ++ resolve filePath }, fsPaths) := by
          simp [deleteLocalAttachment, h1, h2, h3m]
        rw [hr]
        refine ⟨?_, ?_, ?_, ?_⟩
        · simp [h1, h2, h3m]
        · intro hc
          exact Bool.noConfusion hc
        · intro _
          exact ⟨rfl, strAppend_ne_empty _ _ (by decide)⟩
        · intro _ hc
          exact Bool.noConfusion hc
    · have hr : deleteLocalAttachment resolve sep attachmentDir fsPaths
          filePath =
          ({ success := false,
             message := "Security error: Cannot delete files outside of attachment directory ("
               ++ resolve (attachmentDir.getD "") ++ ")" }, fsPaths) := by
        simp [deleteLocalAttachment, h1, h2]
      rw [hr]
      refine ⟨?_, ?_, ?_, ?_⟩
      · simp [h2]
      · intro hc
        exact Bool.noConfusion hc
      · intro _
        refine ⟨rfl, strAppend_ne_empty _ _ ?_⟩
        rw [String.data_append]
        intro hh
        exact absurd (List.append_eq_nil.mp hh).1 (by decide)
      · intro _ hc
        exact Bool.noConfusion hc
  · have hr : deleteLocalAttachment resolve sep attachmentDir fsPaths
        filePath =
        ({ success := false, message := "TRELLO_ATTACHMENT_DIR is not set" },
         fsPaths) := by
      simp [deleteLocalAttachment, h1]
    rw [hr]
    refine ⟨?_, ?_, ?_, ?_⟩
    · simp [h1]
    · intro hc
      exact Bool.noConfusion hc
    · intro _
      exact ⟨rfl, show ("TRELLO_ATTACHMENT_DIR is not set" : String) ≠ "" by
        decide⟩
    · intro _ hc
      exact Bool.noConfusion hc

/-- Claim C10 witness: with `path.resolve` as the identity, separator
`/`, attachment directory `/att` and one stored file, deleting
`/att/f.png` succeeds and removes exactly that file, and success indeed
rules out the directory itself as target. -/
theorem claim_C10_witness :
    (deleteLocalAttachment id "/" (some "/att") ["/att/f.png"]
        "/att/f.png").2 = ["/att/f.png"].erase (id "/att/f.png") ∧
    id "/att/f.png" ≠ id "/att" := by
  have h := claim_C10 id "/" (some "/att") ["/att/f.png"] "/att/f.png"
  exact ⟨h.2.1 (by decide), h.2.2.2 (by decide) (by decide)⟩

end Trello
